import Mathlib

/-!
Verification model of the project-update workflow of a portfolio website.

The admin PATCH route (`src/app/api/admin/projects/[id]/route.ts`) updates a
Project record in the database and keeps blob storage consistent with it:
derived slug, file uploads, and the file-migration branch that runs when the
title (and hence the slug) changes.  The storage helpers come from
`src/lib/supabase.ts`, the slug and markdown utilities from
`src/lib/markdown.ts`, and the validators from `src/lib/validation.ts`.
The database is modelled as a list of records; the `Project_category_check`
constraint of the SQL migration is enforced at the write, as Postgres does.

Shallow-embedding conventions:
- storage paths are lists of segments (`Path`); URL-valued columns are
  modelled by the storage path that the public URL addresses (the public URL
  is a fixed injective function of the path, `getPublicUrl`);
- timestamps are natural numbers;
- the external blob store can refuse a copy (the transport failure of the
  adapter); this is modelled by the `failCopy` oracle of `StoreEnv`.
-/

namespace Portfolio

/-! ## Slug generator (`generateSlug` of `src/lib/markdown.ts`)

JS source:
```
title.toLowerCase().replace(/[^a-z0-9]+/g, '-').replace(/^-|-$/g, '')
```
The same expression appears inline in the PATCH route.  `toLowerCase` is
modelled per character (ASCII); the run replacement maps each maximal run of
characters outside `[a-z0-9]` to a single hyphen; the final step removes one
leading and one trailing hyphen, which is exactly what the anchored global
regex does. -/

/-- True for the characters `[a-z0-9]` kept by the slug regex. -/
def isSlugChar (c : Char) : Bool :=
  ('a' ≤ c && c ≤ 'z') || ('0' ≤ c && c ≤ '9')

/-- Replace each maximal run of non-slug characters by a single hyphen.
`inRun` records whether the previous character was part of such a run. -/
def collapse (inRun : Bool) : List Char → List Char
  | [] => []
  | c :: cs =>
    if isSlugChar c then c :: collapse false cs
    else if inRun then collapse true cs
    else '-' :: collapse true cs

/-- Remove a single leading hyphen, as the `^-` alternative of the regex. -/
def dropLeadHyphen : List Char → List Char
  | [] => []
  | c :: cs => if c == '-' then cs else c :: cs

/-- Remove a single trailing hyphen, as the `-$` alternative of the regex. -/
def dropTrailHyphen (l : List Char) : List Char :=
  (dropLeadHyphen l.reverse).reverse

/-- Slug derivation from a title (`generateSlug`). -/
def generateSlug (t : String) : String :=
  String.mk (dropTrailHyphen (dropLeadHyphen (collapse false (t.data.map Char.toLower))))

/-- The shape asserted by the spec for slugs: only `[a-z0-9-]`, and the
string neither starts nor ends with a hyphen. -/
def slugShape (s : String) : Prop :=
  (∀ c ∈ s.data, isSlugChar c = true ∨ c = '-') ∧
  (∀ c, s.data.head? = some c → c ≠ '-') ∧
  (∀ c, s.data.getLast? = some c → c ≠ '-')

instance (s : String) : Decidable (slugShape s) := by
  unfold slugShape; infer_instance

/-- Tail of the slug-format regex `^[a-z0-9]+(?:-[a-z0-9]+)*$` of
`validateSlug` in `src/lib/validation.ts`: what may follow the first
mandatory `[a-z0-9]` character. -/
def slugTail : List Char → Bool
  | [] => true
  | c :: cs =>
    if isSlugChar c then slugTail cs
    else if c == '-' then
      match cs with
      | [] => false
      | d :: ds => isSlugChar d && slugTail ds
    else false

/-- The slug format accepted by `validateSlug`:
`^[a-z0-9]+(?:-[a-z0-9]+)*$`. -/
def validSlug (s : String) : Bool :=
  match s.data with
  | [] => false
  | c :: cs => isSlugChar c && slugTail cs

/-! ## Tag normalization (`validateTags` of `src/lib/validation.ts`)

JS source trims and lower-cases each tag and removes duplicates with a `Set`
(which keeps the first occurrence, in insertion order). -/

/-- JS whitespace test for the characters `String.prototype.trim` strips
(the common ASCII ones suffice for this development). -/
def isWhite (c : Char) : Bool :=
  c == ' ' || c == '\t' || c == '\n' || c == '\r'

/-- Trim of a character list: drop whitespace at both ends. -/
def trimChars (l : List Char) : List Char :=
  ((l.dropWhile isWhite).reverse.dropWhile isWhite).reverse

/-- Model of `String.prototype.trim`. -/
def jsTrim (s : String) : String := String.mk (trimChars s.data)

/-- Model of `String.prototype.toLowerCase` (per ASCII character). -/
def jsToLower (s : String) : String := String.mk (s.data.map Char.toLower)

/-- De-duplication keeping the first occurrence, as a JS `Set` does. -/
def dedupKeepFirst (seen : List String) : List String → List String
  | [] => []
  | t :: ts =>
    if seen.contains t then dedupKeepFirst seen ts
    else t :: dedupKeepFirst (t :: seen) ts

/-- `validateTags`: requires a non-empty list of strings that are non-empty
once trimmed, then returns the trimmed, lower-cased, de-duplicated list. -/
def validateTags (tags : List String) : Except Unit (List String) :=
  if tags.isEmpty then .error ()
  else if tags.all (fun t => !(jsTrim t).isEmpty) then
    .ok (dedupKeepFirst [] (tags.map (fun t => jsToLower (jsTrim t))))
  else .error ()

/-! ## Category validation data (`src/config/site.ts` and the
`Project_category_check` SQL constraint) -/

/-- The fixed closed set of project categories. -/
def validCategories : List String :=
  ["article", "analysis", "tutorial", "software_implementation", "other"]

/-! ## Blob storage model (`storage` of `src/lib/supabase.ts`)

A path is its list of segments; the store is an association list from paths
to file contents, all inside the single bucket `projects`.  `list` returns
the direct children of a folder — file names and sub-folder names — once
each, as the Supabase client does; `remove` deletes exact file paths and
silently ignores folder paths. -/

/-- A storage path, as its list of `/`-separated segments. -/
abbrev Path := List String

/-- The contents of the `projects` bucket: path ↦ file text. -/
abbrev Storage := List (Path × String)

/-- Does the second list start with the first?  Used both for folder
containment of paths and for literal string matching on character lists. -/
def startsWith [BEq α] : List α → List α → Bool
  | [], _ => true
  | _ :: _, [] => false
  | f :: fs, p :: ps => f == p && startsWith fs ps

/-- Look up the blob stored at a path. -/
def storageGet (st : Storage) (p : Path) : Option String :=
  (st.find? (fun e => e.1 == p)).map (·.2)

/-- `storage.uploadFile` with `upsert: true`: overwrite anything at `p`. -/
def uploadFile (st : Storage) (p : Path) (c : String) : Storage :=
  (p, c) :: st.filter (fun e => !(e.1 == p))

/-- De-duplication of child names keeping the first occurrence. -/
def dedupNames (seen : List String) : List String → List String
  | [] => []
  | n :: ns =>
    if seen.contains n then dedupNames seen ns
    else n :: dedupNames (n :: seen) ns

/-- `storage.listFiles`: the direct children of a folder (file names and
sub-folder names), each reported once.  An absent folder lists as `[]`. -/
def listFiles (st : Storage) (folder : Path) : List String :=
  dedupNames []
    (st.filterMap (fun e =>
      if startsWith folder e.1 then e.1.get? folder.length else none))

/-- The external-store environment: which copies fail in transport
(`StoreUnavailable` of the adapter contract). -/
structure StoreEnv where
  failCopy : Path → Path → Bool

/-- `storage.copyFile`: download then re-upload with upsert.  Fails when the
source blob is absent or when the transport fails. -/
def copyFile (env : StoreEnv) (st : Storage) (src dst : Path) :
    Except Unit Storage :=
  if env.failCopy src dst then .error ()
  else
    match storageGet st src with
    | none => .error ()
    | some c => .ok (uploadFile st dst c)

/-- `storage.deleteFolder`: list the folder, then `remove` each listed name
under it.  Removing a sub-folder name matches no file path, so only the
depth-one files of the folder are deleted — exactly the Supabase client's
behaviour. -/
def deleteFolder (st : Storage) (folder : Path) : Storage :=
  let names := listFiles st folder
  st.filter (fun e => !(names.any (fun n => e.1 == folder ++ [n])))

/-! ## Data model (the `Project` table of `prisma/schema.prisma`)

Only the columns the update route touches are modelled.  URL columns hold
the storage path their public URL addresses. -/

/-- A Project row. -/
structure Project where
  id : Nat
  title : String
  slug : String
  description : String
  category : String
  tags : List String
  thumbnail : Option Path
  markdownFileUrl : Option Path
  markdownContent : String
  imageUrls : List Path
  isPublished : Bool
  publishedAt : Option Nat
  updatedAt : Nat
deriving DecidableEq, Repr

/-- The `updateData` object accumulated by the PATCH handler: for each
column, `none` means the column is not part of the write (the JS property is
undefined and dropped at serialization). `publishedAt` can be written to
null, hence the two-level option. -/
structure UpdateData where
  description : Option String := none
  category : Option String := none
  tags : Option (List String) := none
  isPublished : Option Bool := none
  markdownContent : Option String := none
  title : Option String := none
  slug : Option String := none
  markdownFileUrl : Option Path := none
  thumbnail : Option Path := none
  imageUrls : Option (List Path) := none
  publishedAt : Option (Option Nat) := none
  updatedAt : Nat := 0
deriving DecidableEq, Repr

/-- Apply an `updateData` object to a row, column by column. -/
def applyUpdate (p : Project) (u : UpdateData) : Project where
  id := p.id
  title := u.title.getD p.title
  slug := u.slug.getD p.slug
  description := u.description.getD p.description
  category := u.category.getD p.category
  tags := u.tags.getD p.tags
  thumbnail := match u.thumbnail with | some q => some q | none => p.thumbnail
  markdownFileUrl :=
    match u.markdownFileUrl with | some q => some q | none => p.markdownFileUrl
  markdownContent := u.markdownContent.getD p.markdownContent
  imageUrls := u.imageUrls.getD p.imageUrls
  isPublished := u.isPublished.getD p.isPublished
  publishedAt := u.publishedAt.getD p.publishedAt
  updatedAt := u.updatedAt

/-- The final `.update().eq('id', id)` write.  Postgres enforces the
`Project_category_check` constraint (migration SQL of the repository) and
the unique index on `slug`; a violated constraint fails the write and
leaves the table unchanged. -/
def dbUpdate (db : List Project) (id : Nat) (u : UpdateData) :
    Except Unit (List Project × Project) :=
  match db.find? (fun p => p.id == id) with
  | none => .error ()
  | some cur =>
    let r := applyUpdate cur u
    if validCategories.contains r.category then
      if db.any (fun q => q.id != id && q.slug == r.slug) then .error ()
      else .ok (db.map (fun q => if q.id == id then r else q), r)
    else .error ()

/-! ## `migrateProjectFiles` (the helper of the PATCH route)

Transcribed from the source.  Each individual copy sits in its own
`try/catch` that only logs a warning, so a failed copy does not interrupt
the function; the folder deletion at the end also only logs on failure.
Every awaited call of the body is either inside such a catch or cannot
fail, so the outer `try/catch` (which would re-throw
`Failed to migrate project files`) is unreachable in this model and the
function is total. -/

/-- Extension extraction of the migration branch,
`thumbnail.match(/thumbnail\.([^?]+)/)`: on canonical thumbnail URLs the
first occurrence of `thumbnail.` is the file name of the last path segment,
and the capture is everything after it. -/
def thumbExt (p : Path) : Option String :=
  match p.getLast? with
  | none => none
  | some name =>
    if startsWith "thumbnail.".data name.data then
      some (String.mk (name.data.drop 10))
    else none

/-- The `migratedUrls` object the helper accumulates. -/
structure MigratedUrls where
  markdownFileUrl : Option Path := none
  thumbnail : Option Path := none
  imageUrls : Option (List Path) := none
deriving DecidableEq, Repr

/-- The image-copy loop of the migration: copy each listed file of the old
`images` folder; the first failing copy throws, so later files are not
copied and `imageUrls` stays unset, but the earlier copies remain. -/
def migImages (env : StoreEnv) (oldSlug newSlug : String) :
    List String → Storage → List Path → Storage × Option (List Path)
  | [], st, acc => (st, if acc.isEmpty then none else some acc.reverse)
  | name :: rest, st, acc =>
    match copyFile env st ["projects", oldSlug, "images", name]
        ["projects", newSlug, "images", name] with
    | .error _ => (st, none)
    | .ok st' =>
      migImages env oldSlug newSlug rest st'
        (["projects", newSlug, "images", name] :: acc)

/-- Markdown step of the migration: copy `content.md` when the record has a
markdown URL; a failed copy is caught and leaves the URL unset. -/
def migMd (env : StoreEnv) (st : Storage) (oldSlug newSlug : String)
    (cur : Project) : Option Path × Storage :=
  if cur.markdownFileUrl.isSome then
    match copyFile env st ["projects", oldSlug, "content.md"]
        ["projects", newSlug, "content.md"] with
    | .error _ => (none, st)
    | .ok st' => (some ["projects", newSlug, "content.md"], st')
  else (none, st)

/-- Thumbnail step of the migration: extract the extension from the stored
thumbnail URL and copy; a failed match or copy leaves the URL unset. -/
def migThumb (env : StoreEnv) (st : Storage) (oldSlug newSlug : String)
    (cur : Project) : Option Path × Storage :=
  match cur.thumbnail with
  | none => (none, st)
  | some tp =>
    match thumbExt tp with
    | none => (none, st)
    | some ext =>
      match copyFile env st
          ["projects", oldSlug, "thumbnail." ++ ext]
          ["projects", newSlug, "thumbnail." ++ ext] with
      | .error _ => (none, st)
      | .ok st' => (some ["projects", newSlug, "thumbnail." ++ ext], st')

/-- Images step of the migration: guarded by a non-empty `imageUrls`, list
the old images folder and copy each file. -/
def migImagesStep (env : StoreEnv) (st : Storage) (oldSlug newSlug : String)
    (cur : Project) : Storage × Option (List Path) :=
  if cur.imageUrls.isEmpty then (st, none)
  else
    migImages env oldSlug newSlug
      (listFiles st ["projects", oldSlug, "images"]) st []

/-- `migrateProjectFiles(oldSlug, newSlug, currentProject)`. -/
def migrateProjectFiles (env : StoreEnv) (st : Storage)
    (oldSlug newSlug : String) (cur : Project) : MigratedUrls × Storage :=
  if (listFiles st ["projects", oldSlug]).isEmpty then ({}, st)
  else
    let md := migMd env st oldSlug newSlug cur
    let th := migThumb env md.2 oldSlug newSlug cur
    let im := migImagesStep env th.2 oldSlug newSlug cur
    ({ markdownFileUrl := md.1, thumbnail := th.1, imageUrls := im.2 },
     deleteFolder (deleteFolder im.1 ["projects", oldSlug, "images"])
       ["projects", oldSlug])

/-! ## The PATCH handler -/

/-- The parsed request body of a PATCH call.  A `none` text field is one the
body did not define; `title = some ""` stands for a falsy (empty) title,
which the handler treats like an absent one.  Files carry their text, and
the thumbnail additionally its client file name (for the extension). -/
structure PatchInput where
  title : Option String := none
  description : Option String := none
  category : Option String := none
  tags : Option (List String) := none
  isPublished : Option Bool := none
  markdownContent : Option String := none
  markdownFile : Option String := none
  thumbnailFile : Option (String × String) := none
  imageFiles : List (String × String) := []
deriving Repr

/-- `name.split('.').pop()`: the part after the last dot (the whole name if
there is no dot). -/
def extOf (name : String) : String :=
  String.mk (name.data.reverse.takeWhile (fun c => !(c == '.'))).reverse

/-- Outcome of a PATCH call, as the route's HTTP responses. -/
inductive Outcome where
  | ok (p : Project)
  | notFound
  | slugConflict
  | dbError
deriving DecidableEq, Repr

/-- The observable result of a PATCH call: the response plus the final
database and storage states. -/
structure PatchResult where
  outcome : Outcome
  db : List Project
  storage : Storage
deriving DecidableEq, Repr

/-- The `updateData` object right after body parsing: the five text columns
plus `updatedAt = now`. -/
def baseUpdate (req : PatchInput) (now : Nat) : UpdateData where
  description := req.description
  category := req.category
  tags := req.tags
  isPublished := req.isPublished
  markdownContent := req.markdownContent
  updatedAt := now

/-- Merge the migration result into `updateData`: each URL field is taken
from `migratedUrls` only when the migration set it. -/
def mergeMigrated (u : UpdateData) (m : MigratedUrls) : UpdateData :=
  { u with
    markdownFileUrl :=
      match m.markdownFileUrl with | some q => some q | none => u.markdownFileUrl
    thumbnail := match m.thumbnail with | some q => some q | none => u.thumbnail
    imageUrls := match m.imageUrls with | some q => some q | none => u.imageUrls }

/-- The image-upload loop: each file lands at
`projects/{slug}/images/{timestamp}-{index}-{name}`. -/
def uploadImages (slug : String) (now : Nat) :
    List (String × String) → Nat → Storage → Storage × List Path
  | [], _, st => (st, [])
  | (name, bytes) :: rest, i, st =>
    let p : Path :=
      ["projects", slug, "images", toString now ++ "-" ++ toString i ++ "-" ++ name]
    let r := uploadImages slug now rest (i + 1) (uploadFile st p bytes)
    (r.1, p :: r.2)

/-- Upload stage of the handler (`if (markdownFile) … if (thumbnail) …
if (imageFiles.length > 0) …`): each supplied file is written under
`targetSlug` and staged on `updateData`. -/
def stageFiles (req : PatchInput) (current : Project) (st : Storage)
    (upd : UpdateData) (targetSlug : String) (now : Nat) :
    Storage × UpdateData :=
  let s1 : Storage × UpdateData :=
    match req.markdownFile with
    | none => (st, upd)
    | some text =>
      (uploadFile st ["projects", targetSlug, "content.md"] text,
       { upd with markdownFileUrl := some ["projects", targetSlug, "content.md"],
                  markdownContent := some text })
  let s2 : Storage × UpdateData :=
    match req.thumbnailFile with
    | none => s1
    | some tf =>
      (uploadFile s1.1 ["projects", targetSlug, "thumbnail." ++ extOf tf.1] tf.2,
       { s1.2 with thumbnail := some ["projects", targetSlug, "thumbnail." ++ extOf tf.1] })
  if req.imageFiles.isEmpty then s2
  else
    let r := uploadImages targetSlug now req.imageFiles 0 s2.1
    (r.1, { s2.2 with imageUrls := some (current.imageUrls ++ r.2) })

/-- Migration stage: runs only on a title change with no freshly uploaded
files, merging the migrated URLs into `updateData`. -/
def stageMigrate (env : StoreEnv) (req : PatchInput) (current : Project)
    (targetSlug : String) (titleChanged : Bool) (s : Storage × UpdateData) :
    Storage × UpdateData :=
  if titleChanged && req.markdownFile.isNone && req.thumbnailFile.isNone
      && req.imageFiles.isEmpty then
    let m := migrateProjectFiles env s.1 current.slug targetSlug current
    (m.2, mergeMigrated s.2 m.1)
  else s

/-- `publishedAt` stage: a truthy `isPublished` re-fetches the row and sets
the publish date only when it is still null; anything else writes null. -/
def stagePublish (db : List Project) (id now : Nat) (req : PatchInput)
    (u : UpdateData) : UpdateData :=
  if req.isPublished = some true then
    if ((db.find? (fun p => p.id == id)).bind (·.publishedAt)).isNone then
      { u with publishedAt := some (some now) }
    else u
  else { u with publishedAt := some none }

/-- Remainder of the PATCH handler after the title/slug-conflict step:
file uploads to `targetSlug`, the migration branch, the `publishedAt`
handling, and the final database write. -/
def patchRest (env : StoreEnv) (db : List Project) (st : Storage) (now id : Nat)
    (req : PatchInput) (current : Project) (upd : UpdateData)
    (targetSlug : String) (titleChanged : Bool) : PatchResult :=
  match dbUpdate db id
      (stagePublish db id now req
        (stageMigrate env req current targetSlug titleChanged
          (stageFiles req current st upd targetSlug now)).2) with
  | .error _ =>
    ⟨.dbError, db,
      (stageMigrate env req current targetSlug titleChanged
        (stageFiles req current st upd targetSlug now)).1⟩
  | .ok r =>
    ⟨.ok r.2, r.1,
      (stageMigrate env req current targetSlug titleChanged
        (stageFiles req current st upd targetSlug now)).1⟩

/-- The PATCH handler: fetch the current row, detect a title change, check
the new slug against every other project before touching storage, then run
the rest of the pipeline. -/
def patch (env : StoreEnv) (db : List Project) (st : Storage) (now id : Nat)
    (req : PatchInput) : PatchResult :=
  match db.find? (fun p => p.id == id) with
  | none => ⟨.notFound, db, st⟩
  | some current =>
    match req.title with
    | none => patchRest env db st now id req current (baseUpdate req now) current.slug false
    | some t =>
      if t == "" || t == current.title then
        patchRest env db st now id req current (baseUpdate req now) current.slug false
      else
        let newSlug := generateSlug t
        if db.any (fun q => q.id != id && q.slug == newSlug) then
          ⟨.slugConflict, db, st⟩
        else
          patchRest env db st now id req current
            { baseUpdate req now with title := some t, slug := some newSlug }
            newSlug true

/-- An environment where the external store never fails a copy. -/
def noFail : StoreEnv := ⟨fun _ _ => false⟩

/-! ## Basic storage lemmas -/

theorem beqF [BEq α] [LawfulBEq α] {a b : α} (h : a ≠ b) : (a == b) = false := by
  simp [h]

theorem storageGet_upload_self (st : Storage) (p : Path) (c : String) :
    storageGet (uploadFile st p c) p = some c := by
  simp [storageGet, uploadFile]

theorem find?_filter_ne {st : Storage} {p q : Path} (h : q ≠ p) :
    (st.filter (fun e => !(e.1 == p))).find? (fun e => e.1 == q) =
      st.find? (fun e => e.1 == q) := by
  induction st with
  | nil => rfl
  | cons e rest ih =>
    by_cases hp : e.1 = p
    · have h1 : (!(e.1 == p)) = false := by simp [hp]
      have h2 : (e.1 == q) = false := by rw [hp]; exact beqF (Ne.symm h)
      simp only [List.filter_cons, h1, if_false, List.find?_cons, h2]
      exact ih
    · have h1 : (!(e.1 == p)) = true := by simp [hp]
      simp only [List.filter_cons, h1, if_true, List.find?_cons]
      by_cases hq : e.1 = q
      · simp [hq]
      · simp only [beqF hq]
        exact ih

theorem storageGet_upload_ne (st : Storage) (p q : Path) (c : String)
    (h : q ≠ p) : storageGet (uploadFile st p c) q = storageGet st q := by
  simp only [storageGet, uploadFile, List.find?_cons, beqF (Ne.symm h),
    find?_filter_ne h]

theorem countP_filter_self (st : Storage) (p : Path) :
    (st.filter (fun e => !(e.1 == p))).countP (fun e => e.1 == p) = 0 := by
  induction st with
  | nil => rfl
  | cons e rest ih =>
    by_cases hp : e.1 = p
    · simp [List.filter_cons, hp, ih]
    · simp [List.filter_cons, beqF hp, List.countP_cons, ih]

theorem countP_upload_self (st : Storage) (p : Path) (c : String) :
    (uploadFile st p c).countP (fun e => e.1 == p) = 1 := by
  simp [uploadFile, List.countP_cons, countP_filter_self]

theorem countP_filter_ne (st : Storage) (p q : Path) (h : q ≠ p) :
    (st.filter (fun e => !(e.1 == p))).countP (fun e => e.1 == q) =
      st.countP (fun e => e.1 == q) := by
  induction st with
  | nil => rfl
  | cons e rest ih =>
    by_cases hp : e.1 = p
    · have h2 : (e.1 == q) = false := by rw [hp]; exact beqF (Ne.symm h)
      simp [List.filter_cons, hp, List.countP_cons, h2, Ne.symm h, ih]
    · simp [List.filter_cons, beqF hp, List.countP_cons, ih]

theorem countP_upload_ne (st : Storage) (p q : Path) (c : String) (h : q ≠ p) :
    (uploadFile st p c).countP (fun e => e.1 == q) =
      st.countP (fun e => e.1 == q) := by
  simp [uploadFile, List.countP_cons, beqF (Ne.symm h), countP_filter_ne st p q h]

theorem uploadImages_storageGet (slug : String) (now : Nat)
    (files : List (String × String)) (i : Nat) (st : Storage) (q : Path)
    (hq : q.length ≠ 4) :
    storageGet (uploadImages slug now files i st).1 q = storageGet st q := by
  induction files generalizing i st with
  | nil => rfl
  | cons f rest ih =>
    simp only [uploadImages]
    rw [ih, storageGet_upload_ne]
    intro hh
    exact hq (by simp [hh])

theorem uploadImages_countP (slug : String) (now : Nat)
    (files : List (String × String)) (i : Nat) (st : Storage) (q : Path)
    (hq : q.length ≠ 4) :
    (uploadImages slug now files i st).1.countP (fun e => e.1 == q) =
      st.countP (fun e => e.1 == q) := by
  induction files generalizing i st with
  | nil => rfl
  | cons f rest ih =>
    simp only [uploadImages]
    rw [ih, countP_upload_ne]
    intro hh
    exact hq (by simp [hh])

/-! ## Stage bookkeeping lemmas -/

theorem stageFiles_preserved (req : PatchInput) (cur : Project) (st : Storage)
    (upd : UpdateData) (t : String) (now : Nat) :
    (stageFiles req cur st upd t now).2.publishedAt = upd.publishedAt ∧
    (stageFiles req cur st upd t now).2.slug = upd.slug ∧
    (stageFiles req cur st upd t now).2.title = upd.title ∧
    (stageFiles req cur st upd t now).2.tags = upd.tags ∧
    (stageFiles req cur st upd t now).2.category = upd.category ∧
    (stageFiles req cur st upd t now).2.isPublished = upd.isPublished ∧
    (stageFiles req cur st upd t now).2.updatedAt = upd.updatedAt := by
  cases hm : req.markdownFile <;> cases ht : req.thumbnailFile <;>
    by_cases hi : req.imageFiles.isEmpty <;>
    simp [stageFiles, hm, ht, hi]

theorem mergeMigrated_preserved (u : UpdateData) (m : MigratedUrls) :
    (mergeMigrated u m).publishedAt = u.publishedAt ∧
    (mergeMigrated u m).slug = u.slug ∧
    (mergeMigrated u m).title = u.title ∧
    (mergeMigrated u m).tags = u.tags ∧
    (mergeMigrated u m).category = u.category ∧
    (mergeMigrated u m).isPublished = u.isPublished ∧
    (mergeMigrated u m).markdownContent = u.markdownContent ∧
    (mergeMigrated u m).updatedAt = u.updatedAt := by
  simp [mergeMigrated]

theorem stageMigrate_preserved (env : StoreEnv) (req : PatchInput)
    (cur : Project) (t : String) (tch : Bool) (s : Storage × UpdateData) :
    (stageMigrate env req cur t tch s).2.publishedAt = s.2.publishedAt ∧
    (stageMigrate env req cur t tch s).2.slug = s.2.slug ∧
    (stageMigrate env req cur t tch s).2.title = s.2.title ∧
    (stageMigrate env req cur t tch s).2.tags = s.2.tags ∧
    (stageMigrate env req cur t tch s).2.category = s.2.category ∧
    (stageMigrate env req cur t tch s).2.isPublished = s.2.isPublished ∧
    (stageMigrate env req cur t tch s).2.updatedAt = s.2.updatedAt := by
  unfold stageMigrate
  split
  · exact ⟨(mergeMigrated_preserved _ _).1, (mergeMigrated_preserved _ _).2.1,
      (mergeMigrated_preserved _ _).2.2.1, (mergeMigrated_preserved _ _).2.2.2.1,
      (mergeMigrated_preserved _ _).2.2.2.2.1,
      (mergeMigrated_preserved _ _).2.2.2.2.2.1,
      (mergeMigrated_preserved _ _).2.2.2.2.2.2.2⟩
  · exact ⟨rfl, rfl, rfl, rfl, rfl, rfl, rfl⟩

theorem stagePublish_preserved (db : List Project) (id now : Nat)
    (req : PatchInput) (u : UpdateData) :
    (stagePublish db id now req u).slug = u.slug ∧
    (stagePublish db id now req u).title = u.title ∧
    (stagePublish db id now req u).tags = u.tags ∧
    (stagePublish db id now req u).category = u.category ∧
    (stagePublish db id now req u).isPublished = u.isPublished ∧
    (stagePublish db id now req u).markdownContent = u.markdownContent ∧
    (stagePublish db id now req u).markdownFileUrl = u.markdownFileUrl ∧
    (stagePublish db id now req u).thumbnail = u.thumbnail ∧
    (stagePublish db id now req u).imageUrls = u.imageUrls ∧
    (stagePublish db id now req u).updatedAt = u.updatedAt := by
  unfold stagePublish
  split
  · split <;> simp
  · simp

/-- When no file is supplied the upload stage does nothing. -/
theorem stageFiles_none (req : PatchInput) (cur : Project) (st : Storage)
    (upd : UpdateData) (t : String) (now : Nat)
    (hm : req.markdownFile = none) (ht : req.thumbnailFile = none)
    (hi : req.imageFiles = []) :
    stageFiles req cur st upd t now = (st, upd) := by
  simp [stageFiles, hm, ht, hi]

/-- Without a title change the migration stage does nothing. -/
theorem stageMigrate_false (env : StoreEnv) (req : PatchInput) (cur : Project)
    (t : String) (s : Storage × UpdateData) :
    stageMigrate env req cur t false s = s := by
  simp [stageMigrate]

/-! ## Unfolding the handler -/

/-- A request whose title is absent, falsy, or equal to the current title
skips the whole title branch. -/
theorem patch_title_unchanged (env : StoreEnv) (db : List Project)
    (st : Storage) (now id : Nat) (req : PatchInput) (current : Project)
    (hf : db.find? (fun p => p.id == id) = some current)
    (ht : req.title = none ∨ req.title = some "" ∨ req.title = some current.title) :
    patch env db st now id req =
      patchRest env db st now id req current (baseUpdate req now)
        current.slug false := by
  unfold patch
  rw [hf]
  rcases ht with h | h | h <;> simp [h]

/-- A successful `dbUpdate` found the row, applied the update, and passed
the category and slug-uniqueness constraints. -/
theorem dbUpdate_ok (db : List Project) (id : Nat) (u : UpdateData)
    (r : List Project × Project) (h : dbUpdate db id u = .ok r) :
    ∃ cur', db.find? (fun p => p.id == id) = some cur' ∧
      r.2 = applyUpdate cur' u ∧
      validCategories.contains r.2.category = true ∧
      r.1 = db.map (fun q => if q.id == id then applyUpdate cur' u else q) := by
  unfold dbUpdate at h
  cases hf : db.find? (fun p => p.id == id) with
  | none => rw [hf] at h; cases h
  | some cur' =>
    rw [hf] at h
    dsimp only at h
    by_cases hcat : validCategories.contains (applyUpdate cur' u).category = true
    · rw [if_pos hcat] at h
      by_cases hs : (db.any fun q => q.id != id && q.slug == (applyUpdate cur' u).slug) = true
      · rw [if_pos hs] at h; cases h
      · rw [if_neg hs] at h
        cases h
        exact ⟨cur', rfl, rfl, hcat, rfl⟩
    · rw [if_neg hcat] at h; cases h

/-- A successful outcome always comes from the final write: the returned
record is the staged update applied to the fetched row. -/
theorem patchRest_ok (env : StoreEnv) (db : List Project) (st : Storage)
    (now id : Nat) (req : PatchInput) (current : Project) (upd : UpdateData)
    (t : String) (tch : Bool) (rec : Project)
    (hok : (patchRest env db st now id req current upd t tch).outcome = .ok rec) :
    ∃ cur', db.find? (fun p => p.id == id) = some cur' ∧
      rec = applyUpdate cur'
        (stagePublish db id now req
          (stageMigrate env req current t tch (stageFiles req current st upd t now)).2) ∧
      validCategories.contains rec.category = true := by
  unfold patchRest at hok
  cases hdb : dbUpdate db id
      (stagePublish db id now req
        (stageMigrate env req current t tch (stageFiles req current st upd t now)).2) with
  | error e => rw [hdb] at hok; simp at hok
  | ok r =>
    rw [hdb] at hok
    simp only [Outcome.ok.injEq] at hok
    obtain ⟨cur', hf, hr, hcat, _⟩ := dbUpdate_ok _ _ _ _ hdb
    exact ⟨cur', hf, by rw [← hok, hr], by rw [← hok]; exact hcat⟩

/-- The final table of a PATCH call is either untouched or the single-row
replacement written by a successful `dbUpdate`; every row of it is an old
row or a row that passed the category constraint. -/
theorem patchRest_db (env : StoreEnv) (db : List Project) (st : Storage)
    (now id : Nat) (req : PatchInput) (current : Project) (upd : UpdateData)
    (t : String) (tch : Bool) :
    ∀ p ∈ (patchRest env db st now id req current upd t tch).db,
      p ∈ db ∨ validCategories.contains p.category = true := by
  intro p hp
  unfold patchRest at hp
  cases hdb : dbUpdate db id
      (stagePublish db id now req
        (stageMigrate env req current t tch (stageFiles req current st upd t now)).2) with
  | error e => rw [hdb] at hp; exact Or.inl hp
  | ok r =>
    rw [hdb] at hp
    dsimp only at hp
    obtain ⟨cur', hf, hr, hcat, hdb'⟩ := dbUpdate_ok _ _ _ _ hdb
    rw [hdb'] at hp
    obtain ⟨q, hq, hqe⟩ := List.mem_map.mp hp
    by_cases hid : (q.id == id) = true
    · rw [if_pos hid] at hqe
      right
      rw [← hqe, ← hr]
      exact hcat
    · rw [if_neg hid] at hqe
      exact Or.inl (hqe ▸ hq)

/-! ## Claim theorems -/

/-- C2.  A title change whose derived slug belongs to a different existing
project fails with the slug-conflict response, and neither the database nor
blob storage is touched: the conflict check runs before every storage
operation of the handler. -/
theorem slug_conflict_aborts (env : StoreEnv) (db : List Project)
    (st : Storage) (now id : Nat) (req : PatchInput) (current : Project)
    (t : String)
    (hf : db.find? (fun p => p.id == id) = some current)
    (ht : req.title = some t) (hne : t ≠ "") (hnc : t ≠ current.title)
    (hconf : ∃ q ∈ db, q.id ≠ id ∧ q.slug = generateSlug t) :
    patch env db st now id req = ⟨.slugConflict, db, st⟩ := by
  unfold patch
  rw [hf, ht]
  dsimp only
  rw [if_neg (by simp [hne, hnc])]
  have hany : (db.any fun q => q.id != id && q.slug == generateSlug t) = true := by
    obtain ⟨q, hq, hid, hslug⟩ := hconf
    exact List.any_eq_true.mpr ⟨q, hq, by simp [hid, hslug]⟩
  rw [if_pos hany]

/-- Shared sample row for concrete witnesses. -/
def mkProj (i : Nat) (ttl slg : String) : Project where
  id := i
  title := ttl
  slug := slg
  description := "d"
  category := "other"
  tags := ["t"]
  thumbnail := none
  markdownFileUrl := none
  markdownContent := "md"
  imageUrls := []
  isPublished := false
  publishedAt := none
  updatedAt := 0

/-- Every PATCH call is a not-found response, a slug-conflict response, or a
run of the post-title pipeline with an `updateData` whose non-file fields
come straight from the request body. -/
theorem patch_cases (env : StoreEnv) (db : List Project) (st : Storage)
    (now id : Nat) (req : PatchInput) :
    patch env db st now id req = ⟨.notFound, db, st⟩ ∨
    patch env db st now id req = ⟨.slugConflict, db, st⟩ ∨
    ∃ current upd t tch,
      db.find? (fun p => p.id == id) = some current ∧
      upd.publishedAt = none ∧ upd.tags = req.tags ∧
      upd.category = req.category ∧ upd.isPublished = req.isPublished ∧
      upd.markdownContent = req.markdownContent ∧
      upd.markdownFileUrl = none ∧ upd.thumbnail = none ∧ upd.imageUrls = none ∧
      patch env db st now id req = patchRest env db st now id req current upd t tch := by
  cases hfind : db.find? (fun p => p.id == id) with
  | none =>
    left
    unfold patch
    rw [hfind]
  | some current =>
    cases htl : req.title with
    | none =>
      right; right
      exact ⟨current, baseUpdate req now, current.slug, false, rfl,
        rfl, rfl, rfl, rfl, rfl, rfl, rfl, rfl,
        by unfold patch; rw [hfind, htl]⟩
    | some t =>
      by_cases hcase : (t == "" || t == current.title) = true
      · right; right
        exact ⟨current, baseUpdate req now, current.slug, false, rfl,
          rfl, rfl, rfl, rfl, rfl, rfl, rfl, rfl,
          by unfold patch; rw [hfind, htl]; dsimp only; rw [if_pos hcase]⟩
      · by_cases hconf :
            (db.any fun q => q.id != id && q.slug == generateSlug t) = true
        · right; left
          unfold patch
          rw [hfind, htl]
          dsimp only
          rw [if_neg hcase, if_pos hconf]
        · right; right
          refine ⟨current,
            { baseUpdate req now with
              title := some t, slug := some (generateSlug t) },
            generateSlug t, true, rfl,
            rfl, rfl, rfl, rfl, rfl, rfl, rfl, rfl, ?_⟩
          unfold patch
          rw [hfind, htl]
          dsimp only
          rw [if_neg hcase, if_neg hconf]

/-- C2 witness. -/
theorem slug_conflict_aborts_witness :
    patch noFail [mkProj 1 "Old" "old", mkProj 2 "Taken" "taken"]
      [] 9 1 { title := some "Taken!" } =
    ⟨.slugConflict, [mkProj 1 "Old" "old", mkProj 2 "Taken" "taken"], []⟩ :=
  slug_conflict_aborts noFail
    [mkProj 1 "Old" "old", mkProj 2 "Taken" "taken"] [] 9 1
    { title := some "Taken!" } (mkProj 1 "Old" "old") "Taken!"
    (by decide) rfl (by decide) (by decide)
    ⟨mkProj 2 "Taken" "taken", by decide, by decide, by decide⟩

/-- C9.  A request that does not change the title and carries no files
leaves blob storage untouched, leaves every row's slug (in particular the
target's) unchanged, and any returned record still has the old slug. -/
theorem non_title_non_asset_frame (env : StoreEnv) (db : List Project)
    (st : Storage) (now id : Nat) (req : PatchInput) (current : Project)
    (hf : db.find? (fun p => p.id == id) = some current)
    (ht : req.title = none ∨ req.title = some "" ∨ req.title = some current.title)
    (hmd : req.markdownFile = none) (hth : req.thumbnailFile = none)
    (him : req.imageFiles = [])
    (hU : ∀ q ∈ db, q.id = id → q.slug = current.slug) :
    (patch env db st now id req).storage = st ∧
    (patch env db st now id req).db.map Project.slug = db.map Project.slug ∧
    ∀ rec, (patch env db st now id req).outcome = .ok rec →
      rec.slug = current.slug := by
  rw [patch_title_unchanged env db st now id req current hf ht]
  unfold patchRest
  rw [stageFiles_none req current st (baseUpdate req now) current.slug now hmd hth him,
    stageMigrate_false]
  cases hdb : dbUpdate db id (stagePublish db id now req (st, baseUpdate req now).2) with
  | error e =>
    refine ⟨rfl, rfl, ?_⟩
    intro rec hrec
    simp at hrec
  | ok r =>
    obtain ⟨cur', hf', hr, hcat, hdb'⟩ := dbUpdate_ok _ _ _ _ hdb
    rw [hf] at hf'
    injection hf' with hc
    subst hc
    have hupdslug :
        (stagePublish db id now req (st, baseUpdate req now).2).slug = none := by
      rw [(stagePublish_preserved db id now req _).1]
      rfl
    have hslug : r.2.slug = current.slug := by
      rw [hr]
      simp [applyUpdate, hupdslug]
    refine ⟨rfl, ?_, ?_⟩
    · show r.1.map Project.slug = db.map Project.slug
      rw [hdb', List.map_map]
      apply List.map_congr_left
      intro q hq
      by_cases hid : (q.id == id) = true
      · simp only [Function.comp, if_pos hid]
        rw [← hr, hslug]
        exact (hU q hq (by simpa using hid)).symm
      · have hne : ¬q.id = id := by simpa using hid
        simp [Function.comp, hne]
    · intro rec hrec
      simp only [Outcome.ok.injEq] at hrec
      rw [← hrec]
      exact hslug

/-- C9 witness. -/
theorem non_title_non_asset_frame_witness :
    (patch noFail [mkProj 1 "Old" "old"] [] 9 1
        { description := some "x" }).storage = [] ∧
    (patch noFail [mkProj 1 "Old" "old"] [] 9 1
        { description := some "x" }).db.map Project.slug =
      [mkProj 1 "Old" "old"].map Project.slug ∧
    ∀ rec, (patch noFail [mkProj 1 "Old" "old"] [] 9 1
        { description := some "x" }).outcome = .ok rec →
      rec.slug = (mkProj 1 "Old" "old").slug :=
  non_title_non_asset_frame noFail [mkProj 1 "Old" "old"] [] 9 1
    { description := some "x" } (mkProj 1 "Old" "old")
    (by decide) (Or.inl rfl) rfl rfl rfl
    (by intro q hq hid; simp at hq; rw [hq])

/-- C10.  Any request whose `isPublished` is not the truthy `true` — in
particular one that simply omits the field — makes the write set
`publishedAt` to null: the returned record has no publish date, whatever it
was before. -/
theorem falsy_isPublished_clears_publishedAt (env : StoreEnv)
    (db : List Project) (st : Storage) (now id : Nat) (req : PatchInput)
    (rec : Project)
    (hp : req.isPublished ≠ some true)
    (hok : (patch env db st now id req).outcome = .ok rec) :
    rec.publishedAt = none := by
  rcases patch_cases env db st now id req with h | h |
    ⟨current, upd, t, tch, hfind, h1, h2, h3, h4, h5, h6, h7, h8, heq⟩
  · rw [h] at hok; simp at hok
  · rw [h] at hok; simp at hok
  · rw [heq] at hok
    obtain ⟨cur', hf', hr, -⟩ := patchRest_ok _ _ _ _ _ _ _ _ _ _ _ hok
    have hsp : (stagePublish db id now req
        (stageMigrate env req current t tch
          (stageFiles req current st upd t now)).2).publishedAt = some none := by
      unfold stagePublish
      rw [if_neg hp]
    rw [hr]
    simp [applyUpdate, hsp]

/-- C10 witness: a published project patched with only a description loses
its publish date. -/
theorem falsy_isPublished_clears_publishedAt_witness :
    (patch noFail [{ mkProj 1 "Old" "old" with
        isPublished := true, publishedAt := some 5 }] [] 9 1
      { description := some "x" }).outcome =
      .ok { mkProj 1 "Old" "old" with
        description := "x", isPublished := true, publishedAt := none,
        updatedAt := 9 } ∧
    ({ mkProj 1 "Old" "old" with
        description := "x", isPublished := true, publishedAt := none,
        updatedAt := 9 } : Project).publishedAt = none :=
  ⟨by decide,
   falsy_isPublished_clears_publishedAt noFail
     [{ mkProj 1 "Old" "old" with isPublished := true, publishedAt := some 5 }]
     [] 9 1 { description := some "x" }
     { mkProj 1 "Old" "old" with
       description := "x", isPublished := true, publishedAt := none,
       updatedAt := 9 } (by decide) (by decide)⟩

/-- C7.  First publish (`isPublished` true while the stored `publishedAt` is
null) stamps `publishedAt := now`; re-publishing an already published row
keeps the original date; an explicit `isPublished := false` clears it. -/
theorem publishedAt_transitions (env : StoreEnv) (db : List Project)
    (st : Storage) (now id : Nat) (req : PatchInput) (current : Project)
    (rec : Project)
    (hfind : db.find? (fun p => p.id == id) = some current)
    (hok : (patch env db st now id req).outcome = .ok rec) :
    (req.isPublished = some true → current.publishedAt = none →
      rec.publishedAt = some now) ∧
    (∀ t0, req.isPublished = some true → current.publishedAt = some t0 →
      rec.publishedAt = some t0) ∧
    (req.isPublished = some false → rec.publishedAt = none) := by
  rcases patch_cases env db st now id req with h | h |
    ⟨current', upd, t, tch, hfind', h1, h2, h3, h4, h5, h6, h7, h8, heq⟩
  · rw [h] at hok; simp at hok
  · rw [h] at hok; simp at hok
  · rw [heq] at hok
    obtain ⟨cur', hf', hr, -⟩ := patchRest_ok _ _ _ _ _ _ _ _ _ _ _ hok
    rw [hfind] at hf'
    injection hf' with hc
    subst hc
    have hpub : (stageMigrate env req current' t tch
        (stageFiles req current' st upd t now)).2.publishedAt = none := by
      rw [(stageMigrate_preserved env req current' t tch _).1,
        (stageFiles_preserved req current' st upd t now).1, h1]
    refine ⟨?_, ?_, ?_⟩
    · intro hp hnull
      rw [hr]
      have hsp : (stagePublish db id now req
          (stageMigrate env req current' t tch
            (stageFiles req current' st upd t now)).2).publishedAt =
          some (some now) := by
        unfold stagePublish
        rw [if_pos hp, if_pos (by rw [hfind]; simp [hnull])]
      simp [applyUpdate, hsp]
    · intro t0 hp hval
      rw [hr]
      have hsp : (stagePublish db id now req
          (stageMigrate env req current' t tch
            (stageFiles req current' st upd t now)).2).publishedAt = none := by
        unfold stagePublish
        rw [if_pos hp, if_neg (by rw [hfind]; simp [hval])]
        exact hpub
      simp [applyUpdate, hsp, hval]
    · intro hp
      rw [hr]
      have hsp : (stagePublish db id now req
          (stageMigrate env req current' t tch
            (stageFiles req current' st upd t now)).2).publishedAt =
          some none := by
        unfold stagePublish
        rw [if_neg (by rw [hp]; simp)]
      simp [applyUpdate, hsp]

/-- C7 witness: first publish stamps the current time. -/
theorem publishedAt_transitions_witness :
    (patch noFail [mkProj 1 "Old" "old"] [] 9 1
        { isPublished := some true }).outcome =
      .ok { mkProj 1 "Old" "old" with
        isPublished := true, publishedAt := some 9, updatedAt := 9 } ∧
    ({ mkProj 1 "Old" "old" with
        isPublished := true, publishedAt := some 9, updatedAt := 9 } :
        Project).publishedAt = some 9 := by
  refine ⟨by decide, ?_⟩
  exact (publishedAt_transitions noFail [mkProj 1 "Old" "old"] [] 9 1
    { isPublished := some true } (mkProj 1 "Old" "old")
    { mkProj 1 "Old" "old" with
      isPublished := true, publishedAt := some 9, updatedAt := 9 }
    (by decide) (by decide)).1 rfl rfl

/-- C6 counterexample.  The update route stores the request's tags without
any normalization: the input `["Python", " python ", "ML"]` is written
verbatim, although the repository's own `validateTags` (not invoked by the
route) would normalize it to `["python", "ml"]`. -/
theorem tags_not_normalized_cex :
    ∃ rec,
      (patch noFail [mkProj 1 "Old" "old"] [] 9 1
          { tags := some ["Python", " python ", "ML"] }).outcome = .ok rec ∧
      rec.tags = ["Python", " python ", "ML"] ∧
      validateTags ["Python", " python ", "ML"] = .ok ["python", "ml"] ∧
      rec.tags ≠ ["python", "ml"] ∧ rec.tags ≠ ["ml", "python"] :=
  ⟨{ mkProj 1 "Old" "old" with
      tags := ["Python", " python ", "ML"], updatedAt := 9 },
    by decide, by decide, rfl, by decide, by decide⟩

/-- C6 amended.  The tags column of a successful update is exactly the tag
list supplied in the request, with no trimming, lower-casing or
de-duplication. -/
theorem tags_stored_verbatim (env : StoreEnv) (db : List Project)
    (st : Storage) (now id : Nat) (req : PatchInput) (ts : List String)
    (rec : Project)
    (htags : req.tags = some ts)
    (hok : (patch env db st now id req).outcome = .ok rec) :
    rec.tags = ts := by
  rcases patch_cases env db st now id req with h | h |
    ⟨current, upd, t, tch, hfind, h1, h2, h3, h4, h5, h6, h7, h8, heq⟩
  · rw [h] at hok; simp at hok
  · rw [h] at hok; simp at hok
  · rw [heq] at hok
    obtain ⟨cur', hf', hr, -⟩ := patchRest_ok _ _ _ _ _ _ _ _ _ _ _ hok
    have htg : (stagePublish db id now req
        (stageMigrate env req current t tch
          (stageFiles req current st upd t now)).2).tags = some ts := by
      rw [(stagePublish_preserved db id now req _).2.2.1,
        (stageMigrate_preserved env req current t tch _).2.2.2.1,
        (stageFiles_preserved req current st upd t now).2.2.2.1, h2, htags]
    rw [hr]
    simp [applyUpdate, htg]

/-- C6 amended witness. -/
theorem tags_stored_verbatim_witness :
    (patch noFail [mkProj 1 "Old" "old"] [] 9 1
        { tags := some ["A", "A"] }).outcome =
      .ok { mkProj 1 "Old" "old" with tags := ["A", "A"], updatedAt := 9 } ∧
    ({ mkProj 1 "Old" "old" with tags := ["A", "A"], updatedAt := 9 } :
      Project).tags = ["A", "A"] :=
  ⟨by decide,
   tags_stored_verbatim noFail [mkProj 1 "Old" "old"] [] 9 1
     { tags := some ["A", "A"] } ["A", "A"]
     { mkProj 1 "Old" "old" with tags := ["A", "A"], updatedAt := 9 }
     rfl (by decide)⟩

/-- With an invalid category staged, the final write always violates the
check constraint, so the pipeline ends in the database-error response with
the table untouched. -/
theorem patchRest_invalid_cat (env : StoreEnv) (db : List Project)
    (st : Storage) (now id : Nat) (req : PatchInput) (current : Project)
    (upd : UpdateData) (t : String) (tch : Bool) (c : String)
    (hcat : upd.category = some c)
    (hcv : validCategories.contains c = false) :
    (∀ rec, (patchRest env db st now id req current upd t tch).outcome ≠
      .ok rec) ∧
    (patchRest env db st now id req current upd t tch).db = db := by
  have hc5 : (stagePublish db id now req
      (stageMigrate env req current t tch
        (stageFiles req current st upd t now)).2).category = some c := by
    rw [(stagePublish_preserved db id now req _).2.2.2.1,
      (stageMigrate_preserved env req current t tch _).2.2.2.2.1,
      (stageFiles_preserved req current st upd t now).2.2.2.2.1, hcat]
  unfold patchRest
  cases hdb : dbUpdate db id (stagePublish db id now req
      (stageMigrate env req current t tch
        (stageFiles req current st upd t now)).2) with
  | error e => exact ⟨by intro rec h; simp at h, rfl⟩
  | ok r =>
    exfalso
    obtain ⟨cur', hf', hr, hok, -⟩ := dbUpdate_ok _ _ _ _ hdb
    rw [hr] at hok
    rw [show (applyUpdate cur' (stagePublish db id now req
        (stageMigrate env req current t tch
          (stageFiles req current st upd t now)).2)).category = c by
      simp [applyUpdate, hc5]] at hok
    rw [hcv] at hok
    cases hok

/-- C5 amended.  The route does not validate the category: an invalid value
travels to the final database write, where the check constraint rejects it
(a generic database error, after any storage uploads of the same request
have already run); hence no stored row ever carries a category outside the
closed set. -/
theorem invalid_category_rejected_at_db_write (env : StoreEnv)
    (db : List Project) (st : Storage) (now id : Nat) (req : PatchInput) :
    (∀ c, req.category = some c → validCategories.contains c = false →
      (∀ rec, (patch env db st now id req).outcome ≠ .ok rec) ∧
      (patch env db st now id req).db = db) ∧
    ((∀ p ∈ db, validCategories.contains p.category = true) →
      ∀ p ∈ (patch env db st now id req).db,
        validCategories.contains p.category = true) := by
  constructor
  · intro c hc hcv
    rcases patch_cases env db st now id req with h | h |
      ⟨current, upd, t, tch, hfind, h1, h2, h3, h4, h5, h6, h7, h8, heq⟩
    · rw [h]; exact ⟨by intro rec hh; simp at hh, rfl⟩
    · rw [h]; exact ⟨by intro rec hh; simp at hh, rfl⟩
    · rw [heq]
      exact patchRest_invalid_cat env db st now id req current upd t tch c
        (by rw [h3, hc]) hcv
  · intro hdb p hp
    rcases patch_cases env db st now id req with h | h |
      ⟨current, upd, t, tch, hfind, h1, h2, h3, h4, h5, h6, h7, h8, heq⟩
    · rw [h] at hp; exact hdb p hp
    · rw [h] at hp; exact hdb p hp
    · rw [heq] at hp
      rcases patchRest_db env db st now id req current upd t tch p hp with
        hmem | hcat
      · exact hdb p hmem
      · exact hcat

/-- C5 counterexample.  A request with the invalid category
`Machine Learning` and a new markdown file mutates storage (the upload runs
first) and then fails at the database write — there is no category
validation, and hence no `InvalidCategory` failure, before the mutations. -/
theorem invalid_category_mutates_storage_cex :
    (patch noFail [mkProj 1 "Old" "old"] [] 9 1
        { category := some "Machine Learning",
          markdownFile := some "# new" }).storage ≠ ([] : Storage) ∧
    (patch noFail [mkProj 1 "Old" "old"] [] 9 1
        { category := some "Machine Learning",
          markdownFile := some "# new" }).storage =
      [(["projects", "old", "content.md"], "# new")] ∧
    (patch noFail [mkProj 1 "Old" "old"] [] 9 1
        { category := some "Machine Learning",
          markdownFile := some "# new" }).outcome = .dbError := by
  refine ⟨?_, by decide, by decide⟩
  decide

/-- C5 amended witness. -/
theorem invalid_category_rejected_at_db_write_witness :
    ((∀ rec, (patch noFail [mkProj 1 "Old" "old"] [] 9 1
        { category := some "bogus" }).outcome ≠ .ok rec) ∧
      (patch noFail [mkProj 1 "Old" "old"] [] 9 1
        { category := some "bogus" }).db = [mkProj 1 "Old" "old"]) ∧
    (∀ p ∈ (patch noFail [mkProj 1 "Old" "old"] [] 9 1
        { category := some "bogus" }).db,
      validCategories.contains p.category = true) :=
  ⟨(invalid_category_rejected_at_db_write noFail [mkProj 1 "Old" "old"]
      [] 9 1 { category := some "bogus" }).1 "bogus" rfl (by decide),
   (invalid_category_rejected_at_db_write noFail [mkProj 1 "Old" "old"]
      [] 9 1 { category := some "bogus" }).2 (by decide)⟩

/-- A thumbnail file name never collides with the markdown file name. -/
theorem thumbName_ne_content (e : String) :
    ("thumbnail." ++ e) ≠ "content.md" := by
  intro h
  have hd := congrArg String.data h
  rw [String.data_append] at hd
  simp at hd

/-- A markdown-file upload skips the migration branch entirely. -/
theorem stageMigrate_with_md (env : StoreEnv) (req : PatchInput)
    (cur : Project) (t : String) (tch : Bool) (s : Storage × UpdateData)
    (text : String) (hmd : req.markdownFile = some text) :
    stageMigrate env req cur t tch s = s := by
  unfold stageMigrate
  rw [if_neg]
  simp [hmd]

/-- Effect of the upload stage when a markdown file is supplied: the blob
at `projects/{slug}/content.md` holds the new text, exactly once, and the
staged update carries the new text and URL. -/
theorem stageFiles_md (req : PatchInput) (cur : Project) (st : Storage)
    (upd : UpdateData) (t : String) (now : Nat) (text : String)
    (hmd : req.markdownFile = some text) :
    storageGet (stageFiles req cur st upd t now).1
      ["projects", t, "content.md"] = some text ∧
    (stageFiles req cur st upd t now).1.countP
      (fun e => e.1 == ["projects", t, "content.md"]) = 1 ∧
    (stageFiles req cur st upd t now).2.markdownContent = some text ∧
    (stageFiles req cur st upd t now).2.markdownFileUrl =
      some ["projects", t, "content.md"] := by
  have hne : ∀ tf : String × String,
      (["projects", t, "thumbnail." ++ extOf tf.1] : Path) ≠
        ["projects", t, "content.md"] := by
    intro tf h
    exact thumbName_ne_content (extOf tf.1) (by injection h with _ h2; injection h2 with _ h3; injection h3)
  unfold stageFiles
  rw [hmd]
  cases hth : req.thumbnailFile with
  | none =>
    by_cases him : req.imageFiles.isEmpty
    · rw [if_pos him]
      exact ⟨storageGet_upload_self st _ text, countP_upload_self st _ text, rfl, rfl⟩
    · rw [if_neg him]
      dsimp only
      refine ⟨?_, ?_, rfl, rfl⟩
      · rw [uploadImages_storageGet _ _ _ _ _ _ (by simp)]
        exact storageGet_upload_self st _ text
      · rw [uploadImages_countP _ _ _ _ _ _ (by simp)]
        exact countP_upload_self st _ text
  | some tf =>
    by_cases him : req.imageFiles.isEmpty
    · rw [if_pos him]
      dsimp only
      refine ⟨?_, ?_, rfl, rfl⟩
      · rw [storageGet_upload_ne _ _ _ _ (Ne.symm (hne tf))]
        exact storageGet_upload_self st _ text
      · rw [countP_upload_ne _ _ _ _ (Ne.symm (hne tf))]
        exact countP_upload_self st _ text
    · rw [if_neg him]
      dsimp only
      refine ⟨?_, ?_, rfl, rfl⟩
      · rw [uploadImages_storageGet _ _ _ _ _ _ (by simp),
          storageGet_upload_ne _ _ _ _ (Ne.symm (hne tf))]
        exact storageGet_upload_self st _ text
      · rw [uploadImages_countP _ _ _ _ _ _ (by simp),
          countP_upload_ne _ _ _ _ (Ne.symm (hne tf))]
        exact countP_upload_self st _ text

/-- C4.  Uploading a new markdown file without changing the title stores the
file at `projects/{slug}/content.md` under the unchanged slug, overwriting
in place (exactly one blob at that path), and a successful response carries
`markdownContent` equal to the uploaded text and `markdownFileUrl`
addressing that path. -/
theorem markdown_upload_in_place (env : StoreEnv) (db : List Project)
    (st : Storage) (now id : Nat) (req : PatchInput) (current : Project)
    (text : String)
    (hf : db.find? (fun p => p.id == id) = some current)
    (ht : req.title = none ∨ req.title = some "" ∨ req.title = some current.title)
    (hmd : req.markdownFile = some text) :
    storageGet (patch env db st now id req).storage
      ["projects", current.slug, "content.md"] = some text ∧
    (patch env db st now id req).storage.countP
      (fun e => e.1 == ["projects", current.slug, "content.md"]) = 1 ∧
    ∀ rec, (patch env db st now id req).outcome = .ok rec →
      rec.markdownContent = text ∧
      rec.markdownFileUrl = some ["projects", current.slug, "content.md"] := by
  rw [patch_title_unchanged env db st now id req current hf ht]
  have hmig := stageMigrate_with_md env req current current.slug false
    (stageFiles req current st (baseUpdate req now) current.slug now) text hmd
  have hsf := stageFiles_md req current st (baseUpdate req now)
    current.slug now text hmd
  unfold patchRest
  rw [hmig]
  cases hdb : dbUpdate db id (stagePublish db id now req
      (stageFiles req current st (baseUpdate req now) current.slug now).2) with
  | error e =>
    refine ⟨hsf.1, hsf.2.1, ?_⟩
    intro rec hrec
    simp at hrec
  | ok r =>
    obtain ⟨cur', hf', hr, -, -⟩ := dbUpdate_ok _ _ _ _ hdb
    refine ⟨hsf.1, hsf.2.1, ?_⟩
    intro rec hrec
    simp only [Outcome.ok.injEq] at hrec
    rw [← hrec, hr]
    constructor
    · have hc : (stagePublish db id now req
          (stageFiles req current st (baseUpdate req now) current.slug now).2).markdownContent =
          some text := by
        rw [(stagePublish_preserved db id now req _).2.2.2.2.2.1]
        exact hsf.2.2.1
      simp [applyUpdate, hc]
    · have hu : (stagePublish db id now req
          (stageFiles req current st (baseUpdate req now) current.slug now).2).markdownFileUrl =
          some ["projects", current.slug, "content.md"] := by
        rw [(stagePublish_preserved db id now req _).2.2.2.2.2.2.1]
        exact hsf.2.2.2
      simp [applyUpdate, hu]

/-- C4 witness. -/
theorem markdown_upload_in_place_witness :
    storageGet (patch noFail [mkProj 1 "Old" "old"]
        [(["projects", "old", "content.md"], "# old")] 9 1
        { markdownFile := some "# new" }).storage
      ["projects", "old", "content.md"] = some "# new" ∧
    (patch noFail [mkProj 1 "Old" "old"]
        [(["projects", "old", "content.md"], "# old")] 9 1
        { markdownFile := some "# new" }).storage.countP
      (fun e => e.1 == ["projects", "old", "content.md"]) = 1 ∧
    ∀ rec, (patch noFail [mkProj 1 "Old" "old"]
        [(["projects", "old", "content.md"], "# old")] 9 1
        { markdownFile := some "# new" }).outcome = .ok rec →
      rec.markdownContent = "# new" ∧
      rec.markdownFileUrl = some ["projects", "old", "content.md"] :=
  markdown_upload_in_place noFail [mkProj 1 "Old" "old"]
    [(["projects", "old", "content.md"], "# old")] 9 1
    { markdownFile := some "# new" } (mkProj 1 "Old" "old") "# new"
    (by decide) (Or.inl rfl) rfl

/-! ## Slug shape and stability -/

/-- ASCII lower-case letters, digits and the hyphen are fixed points of
`toLowerCase`. -/
theorem toLower_fix (c : Char) (h : isSlugChar c = true ∨ c = '-') :
    c.toLower = c := by
  rcases h with h | h
  · simp only [isSlugChar, Bool.or_eq_true, Bool.and_eq_true,
      decide_eq_true_eq] at h
    unfold Char.toLower
    rw [if_neg]
    rintro ⟨h1, h2⟩
    rcases h with ⟨ha, _⟩ | ⟨_, hb⟩
    · have ha' : ('a' : Char).toNat ≤ c.toNat := ha
      have e1 : ('a' : Char).toNat = 97 := rfl
      rw [e1] at ha'
      omega
    · have hb' : c.toNat ≤ ('9' : Char).toNat := hb
      have e3 : ('9' : Char).toNat = 57 := rfl
      rw [e3] at hb'
      omega
  · subst h
    decide

theorem slugChar_ne_hyphen {c : Char} (h : isSlugChar c = true) : c ≠ '-' :=
  fun hc => absurd h (by subst hc; decide)

/-- Characters of the collapsed list are slug characters or hyphens. -/
theorem mem_collapse (l : List Char) :
    ∀ (b : Bool) (c : Char), c ∈ collapse b l →
      isSlugChar c = true ∨ c = '-' := by
  induction l with
  | nil => intro b c hc; simp [collapse] at hc
  | cons a cs ih =>
    intro b c hc
    by_cases ha : isSlugChar a
    · rw [collapse, if_pos ha] at hc
      rcases List.mem_cons.mp hc with h | h
      · left; rw [h]; exact ha
      · exact ih false c h
    · rw [collapse, if_neg ha] at hc
      cases b with
      | true => rw [if_pos rfl] at hc; exact ih true c hc
      | false =>
        rw [if_neg (by simp)] at hc
        rcases List.mem_cons.mp hc with h | h
        · right; exact h
        · exact ih true c h

/-- After a run, the next emitted character is a slug character. -/
theorem head_collapse_true (l : List Char) :
    ∀ c, (collapse true l).head? = some c → isSlugChar c = true := by
  induction l with
  | nil => intro c hc; simp [collapse] at hc
  | cons a cs ih =>
    intro c hc
    by_cases ha : isSlugChar a
    · rw [collapse, if_pos ha] at hc
      simp only [List.head?_cons, Option.some.injEq] at hc
      rw [← hc]; exact ha
    · rw [collapse, if_neg ha, if_pos rfl] at hc
      exact ih c hc

/-- The collapsed list never holds two adjacent hyphens. -/
theorem chain_collapse (l : List Char) :
    ∀ b, List.Chain' (fun x y => ¬(x = '-' ∧ y = '-')) (collapse b l) := by
  induction l with
  | nil => intro b; simp [collapse]
  | cons a cs ih =>
    intro b
    by_cases ha : isSlugChar a
    · rw [collapse, if_pos ha, List.chain'_cons']
      refine ⟨?_, ih false⟩
      rintro y hy ⟨h1, _⟩
      exact slugChar_ne_hyphen ha h1
    · rw [collapse, if_neg ha]
      cases b with
      | true => rw [if_pos rfl]; exact ih true
      | false =>
        rw [if_neg (by simp), List.chain'_cons']
        refine ⟨?_, ih true⟩
        rintro y hy ⟨_, h2⟩
        exact slugChar_ne_hyphen (head_collapse_true cs y hy) h2

theorem mem_dropLead {l : List Char} {c : Char}
    (h : c ∈ dropLeadHyphen l) : c ∈ l := by
  cases l with
  | nil => simp [dropLeadHyphen] at h
  | cons a cs =>
    rw [dropLeadHyphen] at h
    by_cases ha : a = '-'
    · rw [if_pos (by simp [ha])] at h
      exact List.mem_cons_of_mem a h
    · rwa [if_neg (by simp [ha])] at h

theorem chain_dropLead {R : Char → Char → Prop} {l : List Char}
    (h : List.Chain' R l) : List.Chain' R (dropLeadHyphen l) := by
  cases l with
  | nil => simp [dropLeadHyphen]
  | cons a cs =>
    rw [dropLeadHyphen]
    by_cases ha : a = '-'
    · rw [if_pos (by simp [ha])]
      exact h.tail
    · rwa [if_neg (by simp [ha])]

theorem head_dropLead {l : List Char}
    (hch : List.Chain' (fun x y => ¬(x = '-' ∧ y = '-')) l) :
    ∀ c, (dropLeadHyphen l).head? = some c → c ≠ '-' := by
  cases l with
  | nil => intro c hc; simp [dropLeadHyphen] at hc
  | cons a cs =>
    intro c hc
    rw [dropLeadHyphen] at hc
    by_cases ha : a = '-'
    · rw [if_pos (by simp [ha])] at hc
      have hr := (List.chain'_cons'.mp hch).1 c hc
      intro hcc
      exact hr ⟨ha, hcc⟩
    · rw [if_neg (by simp [ha])] at hc
      simp only [List.head?_cons, Option.some.injEq] at hc
      rw [← hc]; exact ha

theorem getLast_dropLead {l : List Char} {c : Char}
    (h : (dropLeadHyphen l).getLast? = some c) : l.getLast? = some c := by
  cases l with
  | nil => simp [dropLeadHyphen] at h
  | cons a cs =>
    rw [dropLeadHyphen] at h
    by_cases ha : a = '-'
    · rw [if_pos (by simp [ha])] at h
      cases cs with
      | nil => simp at h
      | cons d ds => rw [List.getLast?_cons_cons]; exact h
    · rwa [if_neg (by simp [ha])] at h

theorem mem_dropTrail {l : List Char} {c : Char}
    (h : c ∈ dropTrailHyphen l) : c ∈ l := by
  unfold dropTrailHyphen at h
  rw [List.mem_reverse] at h
  have h2 := mem_dropLead h
  rwa [List.mem_reverse] at h2

theorem getLast_dropTrail {l : List Char}
    (hch : List.Chain' (fun x y => ¬(x = '-' ∧ y = '-')) l) :
    ∀ c, (dropTrailHyphen l).getLast? = some c → c ≠ '-' := by
  intro c hc
  unfold dropTrailHyphen at hc
  rw [List.getLast?_reverse] at hc
  refine head_dropLead ?_ c hc
  rw [List.chain'_reverse]
  exact hch.imp (fun a b hab => by rintro ⟨h1, h2⟩; exact hab ⟨h2, h1⟩)

theorem head_dropTrail {l : List Char}
    (hh : ∀ c, l.head? = some c → c ≠ '-') :
    ∀ c, (dropTrailHyphen l).head? = some c → c ≠ '-' := by
  intro c hc
  unfold dropTrailHyphen at hc
  rw [List.head?_reverse] at hc
  have h2 := getLast_dropLead hc
  rw [List.getLast?_reverse] at h2
  exact hh c h2

theorem generateSlug_shape_aux (t : String) : slugShape (generateSlug t) := by
  unfold generateSlug slugShape
  refine ⟨?_, ?_, ?_⟩
  · intro c hc
    exact mem_collapse _ false c (mem_dropLead (mem_dropTrail hc))
  · exact head_dropTrail
      (head_dropLead (chain_collapse (t.data.map Char.toLower) false))
  · exact getLast_dropTrail
      (chain_dropLead (chain_collapse (t.data.map Char.toLower) false))

/-- Structure of lists accepted by the slug-format regex: `collapse` fixes
them, their characters are slug characters or separators, and they end in a
slug character. -/
theorem slugTail_facts :
    ∀ n cs, List.length cs ≤ n → slugTail cs = true →
      collapse false cs = cs ∧
      ((∀ d ds, cs = d :: ds → isSlugChar d = true) → collapse true cs = cs) ∧
      (∀ c ∈ cs, isSlugChar c = true ∨ c = '-') ∧
      (∀ c, cs.getLast? = some c → isSlugChar c = true) := by
  intro n
  induction n with
  | zero =>
    intro cs hlen _
    have : cs = [] := List.eq_nil_of_length_eq_zero (Nat.le_zero.mp hlen)
    subst this
    exact ⟨rfl, fun _ => rfl, by simp, by simp⟩
  | succ n ih =>
    intro cs hlen hst
    cases cs with
    | nil => exact ⟨rfl, fun _ => rfl, by simp, by simp⟩
    | cons c cs' =>
      by_cases hc : isSlugChar c
      · rw [slugTail.eq_def] at hst
        dsimp only at hst
        rw [if_pos hc] at hst
        obtain ⟨ih1, ih2, ih3, ih4⟩ :=
          ih cs' (by simpa using Nat.lt_succ_iff.mp (Nat.lt_of_lt_of_le (by simp) hlen)) hst
        refine ⟨?_, ?_, ?_, ?_⟩
        · rw [collapse, if_pos hc, ih1]
        · intro _
          rw [collapse, if_pos hc, ih1]
        · intro x hx
          rcases List.mem_cons.mp hx with h | h
          · left; rw [h]; exact hc
          · exact ih3 x h
        · intro x hx
          cases cs' with
          | nil =>
            simp only [List.getLast?_singleton, Option.some.injEq] at hx
            rw [← hx]; exact hc
          | cons d ds =>
            rw [List.getLast?_cons_cons] at hx
            exact ih4 x hx
      · rw [slugTail.eq_def] at hst
        dsimp only at hst
        rw [if_neg hc] at hst
        by_cases hhy : c = '-'
        · rw [if_pos (by simp [hhy])] at hst
          cases cs' with
          | nil => cases hst
          | cons d ds =>
            obtain ⟨hd, hds⟩ : isSlugChar d = true ∧ slugTail ds = true := by
              simpa using hst
            have hstdds : slugTail (d :: ds) = true := by
              rw [slugTail.eq_def]
              dsimp only
              rw [if_pos hd]
              exact hds
            obtain ⟨ih1, ih2, ih3, ih4⟩ := ih (d :: ds)
              (by simpa using Nat.lt_succ_iff.mp (Nat.lt_of_lt_of_le (by simp) hlen))
              hstdds
            have hctrue : collapse true (d :: ds) = d :: ds :=
              ih2 (fun x xs hx => by injection hx with h1 _; rw [← h1]; exact hd)
            refine ⟨?_, ?_, ?_, ?_⟩
            · rw [collapse, if_neg hc, if_neg (by simp), hhy, hctrue]
            · intro habs
              exact absurd (habs c (d :: ds) rfl) (by simp [hc])
            · intro x hx
              rcases List.mem_cons.mp hx with h | h
              · right; rw [h]; exact hhy
              · exact ih3 x h
            · intro x hx
              rw [List.getLast?_cons_cons] at hx
              exact ih4 x hx
        · rw [if_neg (by simp [hhy])] at hst
          cases hst

/-- The strip of a trailing hyphen fixes a list that does not end in one. -/
theorem dropTrail_id {l : List Char}
    (h : ∀ x, l.getLast? = some x → x ≠ '-') : dropTrailHyphen l = l := by
  unfold dropTrailHyphen
  cases hr : l.reverse with
  | nil =>
    have : l = [] := by simpa using congrArg List.reverse hr
    subst this
    rfl
  | cons a as =>
    have ha : a ≠ '-' := by
      apply h
      rw [← List.head?_reverse, hr]
      rfl
    rw [dropLeadHyphen, if_neg (by simp [ha]), ← hr, List.reverse_reverse]

/-- `generateSlug` fixes every string of the `validateSlug` format. -/
theorem generateSlug_stable (s : String) (h : validSlug s = true) :
    generateSlug s = s := by
  unfold validSlug at h
  cases hd : s.data with
  | nil => rw [hd] at h; cases h
  | cons c cs =>
    rw [hd] at h
    obtain ⟨hc, hcs⟩ : isSlugChar c = true ∧ slugTail cs = true := by
      simpa using h
    obtain ⟨f1, f2, f3, f4⟩ := slugTail_facts cs.length cs le_rfl hcs
    unfold generateSlug
    rw [hd]
    have hmap : (c :: cs).map Char.toLower = c :: cs := by
      have hall : ∀ x ∈ c :: cs, Char.toLower x = x := by
        intro x hx
        rcases List.mem_cons.mp hx with hh | hh
        · exact toLower_fix x (Or.inl (hh ▸ hc))
        · exact toLower_fix x (f3 x hh)
      calc (c :: cs).map Char.toLower = (c :: cs).map id :=
            List.map_congr_left hall
        _ = c :: cs := List.map_id _
    rw [hmap, collapse, if_pos hc, f1, dropLeadHyphen,
      if_neg (by simp [slugChar_ne_hyphen hc])]
    have hlast : ∀ x, (c :: cs).getLast? = some x → x ≠ '-' := by
      intro x hx
      cases cs with
      | nil =>
        simp only [List.getLast?_singleton, Option.some.injEq] at hx
        rw [← hx]; exact slugChar_ne_hyphen hc
      | cons d ds =>
        rw [List.getLast?_cons_cons] at hx
        exact slugChar_ne_hyphen (f4 x hx)
    rw [dropTrail_id hlast, ← hd]

/-- C8 counterexample.  `a--b` satisfies the shape stated by the claim
(only `[a-z0-9-]`, no leading or trailing hyphen), yet `generateSlug` does
not fix it: the run replacement collapses the adjacent hyphens to one. -/
theorem slug_stability_fails_on_adjacent_hyphens_cex :
    slugShape "a--b" ∧ generateSlug "a--b" ≠ "a--b" ∧
      generateSlug "a--b" = "a-b" := by
  refine ⟨by decide, by decide, by decide⟩

/-- C8 amended.  Every generated slug consists of `[a-z0-9-]` only and
neither starts nor ends with a hyphen; `generateSlug` is stable exactly on
the repository's `validateSlug` format `^[a-z0-9]+(?:-[a-z0-9]+)*$`
(which, unlike the claimed shape, forbids adjacent hyphens). -/
theorem generateSlug_shape_and_stability :
    (∀ t, slugShape (generateSlug t)) ∧
    (∀ s, validSlug s = true → generateSlug s = s) :=
  ⟨generateSlug_shape_aux, generateSlug_stable⟩

/-- C8 amended witness. -/
theorem generateSlug_shape_and_stability_witness :
    slugShape (generateSlug "Hello, World!") ∧
    (validSlug "my-cool-analysis" = true ∧
      generateSlug "my-cool-analysis" = "my-cool-analysis") :=
  ⟨generateSlug_shape_and_stability.1 "Hello, World!",
   by decide,
   generateSlug_shape_and_stability.2 "my-cool-analysis" (by decide)⟩

/-! ## The migration copy-failure bug (C1) -/

/-- A store that fails the copy of the old markdown blob in transport. -/
def envFailMd : StoreEnv :=
  ⟨fun src _ => src == ["projects", "old-title", "content.md"]⟩

/-- A project whose markdown and thumbnail live in its slug folder. -/
def pC1 : Project where
  id := 1
  title := "Old Title"
  slug := "old-title"
  description := "d"
  category := "other"
  tags := ["t"]
  thumbnail := some ["projects", "old-title", "thumbnail.png"]
  markdownFileUrl := some ["projects", "old-title", "content.md"]
  markdownContent := "# doc"
  imageUrls := []
  isPublished := false
  publishedAt := none
  updatedAt := 0

/-- Storage consistent with `pC1`. -/
def stC1 : Storage :=
  [(["projects", "old-title", "content.md"], "# doc"),
   (["projects", "old-title", "thumbnail.png"], "T")]

/-- C1, behaviour of the code at the failing input.  During a title-only
update the copy of `content.md` fails in transport, yet the handler answers
with success: each copy sits in a `try/catch` that only logs, so the
migration is not aborted, no error reaches the caller, the old folder is
still deleted, and the database write commits a record whose
`markdownFileUrl` points into the deleted old folder — the exact opposite
of the specified abort-and-keep-old-blobs behaviour. -/
theorem copy_failure_swallowed :
    ∃ rec,
      patch envFailMd [pC1] stC1 50 1 { title := some "New Title" } =
        ⟨.ok rec, [rec], [(["projects", "new-title", "thumbnail.png"], "T")]⟩ ∧
      envFailMd.failCopy ["projects", "old-title", "content.md"]
        ["projects", "new-title", "content.md"] = true ∧
      rec.slug = "new-title" ∧
      rec.markdownFileUrl = some ["projects", "old-title", "content.md"] ∧
      storageGet [(["projects", "new-title", "thumbnail.png"], "T")]
        ["projects", "old-title", "content.md"] = none ∧
      listFiles [(["projects", "new-title", "thumbnail.png"], "T")]
        ["projects", "old-title"] = [] :=
  ⟨{ id := 1, title := "New Title", slug := "new-title", description := "d",
     category := "other", tags := ["t"],
     thumbnail := some ["projects", "new-title", "thumbnail.png"],
     markdownFileUrl := some ["projects", "old-title", "content.md"],
     markdownContent := "# doc", imageUrls := [],
     isPublished := false, publishedAt := none, updatedAt := 50 },
   by decide, by decide, by decide, by decide, by decide, by decide⟩

/-! ## Path and listing lemmas for the migration proof -/

theorem startsWith_iff {f p : Path} :
    startsWith f p = true ↔ ∃ r, p = f ++ r := by
  induction f generalizing p with
  | nil => simp [startsWith]
  | cons a fs ih =>
    cases p with
    | nil => simp [startsWith]
    | cons b ps =>
      rw [startsWith]
      constructor
      · intro h
        obtain ⟨h1, h2⟩ : (a == b) = true ∧ startsWith fs ps = true := by
          simpa using h
        obtain ⟨r, hr⟩ := ih.mp h2
        refine ⟨r, ?_⟩
        have hab : a = b := by simpa using h1
        rw [hr, hab]
        rfl
      · rintro ⟨r, hr⟩
        obtain ⟨hb, hps⟩ : b = a ∧ ps = fs ++ r := by
          constructor
          · exact (List.cons.injEq _ _ _ _ ▸ hr).1
          · exact (List.cons.injEq _ _ _ _ ▸ hr).2
        subst hb
        simp [ih.mpr ⟨r, hps⟩]

theorem startsWith_self_append (f r : Path) :
    startsWith f (f ++ r) = true :=
  startsWith_iff.mpr ⟨r, rfl⟩

theorem get?_append_self (f r : Path) : (f ++ r).get? f.length = r.head? := by
  induction f with
  | nil => cases r <;> rfl
  | cons a fs ih => simpa using ih

theorem mem_dedupNames (xs : List String) :
    ∀ (seen : List String) (n : String),
      n ∈ dedupNames seen xs ↔ (n ∈ xs ∧ ¬ n ∈ seen) := by
  induction xs with
  | nil => intro seen n; simp [dedupNames]
  | cons x xs ih =>
    intro seen n
    rw [dedupNames]
    by_cases hx : seen.contains x
    · rw [if_pos hx]
      rw [ih]
      constructor
      · rintro ⟨h1, h2⟩
        exact ⟨List.mem_cons_of_mem _ h1, h2⟩
      · rintro ⟨h1, h2⟩
        rcases List.mem_cons.mp h1 with h | h
        · exfalso
          exact h2 (h ▸ (List.mem_of_elem_eq_true hx))
        · exact ⟨h, h2⟩
    · rw [if_neg hx]
      constructor
      · intro h
        rcases List.mem_cons.mp h with h | h
        · subst h
          refine ⟨List.mem_cons_self _ _, ?_⟩
          intro hn
          exact hx (List.elem_eq_true_of_mem hn)
        · obtain ⟨h1, h2⟩ := (ih _ n).mp h
          refine ⟨List.mem_cons_of_mem _ h1, ?_⟩
          intro hn
          exact h2 (List.mem_cons_of_mem _ hn)
      · rintro ⟨h1, h2⟩
        rcases List.mem_cons.mp h1 with h | h
        · subst h; exact List.mem_cons_self _ _
        · by_cases hnx : n = x
          · subst hnx; exact List.mem_cons_self _ _
          · refine List.mem_cons_of_mem _ ((ih _ n).mpr ⟨h, ?_⟩)
            intro hn
            rcases List.mem_cons.mp hn with h' | h'
            · exact hnx h'
            · exact h2 h'

theorem dedupNames_nodup (xs : List String) :
    ∀ seen, (dedupNames seen xs).Nodup := by
  induction xs with
  | nil => intro seen; simp [dedupNames]
  | cons x xs ih =>
    intro seen
    rw [dedupNames]
    by_cases hx : seen.contains x
    · rw [if_pos hx]; exact ih seen
    · rw [if_neg hx]
      refine List.nodup_cons.mpr ⟨?_, ih (x :: seen)⟩
      intro hmem
      exact ((mem_dedupNames xs (x :: seen) x).mp hmem).2 (List.mem_cons_self x seen)

theorem mem_listFiles {st : Storage} {folder : Path} {n : String} :
    n ∈ listFiles st folder ↔
      ∃ e ∈ st, startsWith folder e.1 = true ∧
        e.1.get? folder.length = some n := by
  unfold listFiles
  rw [mem_dedupNames]
  simp only [List.mem_filterMap, List.not_mem_nil, not_false_iff, and_true]
  constructor
  · rintro ⟨e, he, hfe⟩
    by_cases hs : startsWith folder e.1 = true
    · rw [if_pos hs] at hfe
      exact ⟨e, he, hs, hfe⟩
    · rw [if_neg hs] at hfe
      cases hfe
  · rintro ⟨e, he, hs, hg⟩
    exact ⟨e, he, by rw [if_pos hs]; exact hg⟩

theorem listFiles_nodup (st : Storage) (folder : Path) :
    (listFiles st folder).Nodup :=
  dedupNames_nodup _ []

theorem storageGet_isSome {st : Storage} {p : Path} :
    (storageGet st p).isSome = true ↔ ∃ c, (p, c) ∈ st := by
  unfold storageGet
  rw [Option.isSome_map']
  rw [List.find?_isSome]
  constructor
  · rintro ⟨e, he, hp⟩
    have : e.1 = p := by simpa using hp
    exact ⟨e.2, by rw [← this]; exact he⟩
  · rintro ⟨c, hc⟩
    exact ⟨(p, c), hc, by simp⟩

theorem uploadFile_mem {st : Storage} {p : Path} {c : String}
    {e : Path × String} (h : e ∈ uploadFile st p c) :
    e = (p, c) ∨ (e ∈ st ∧ e.1 ≠ p) := by
  rcases List.mem_cons.mp h with h | h
  · exact Or.inl h
  · have h2 := List.mem_filter.mp h
    exact Or.inr ⟨h2.1, by simpa using h2.2⟩

theorem filterMap_filter_eq {f : Path × String → Option String} {p : Path}
    (st : Storage) (hf : ∀ c, f (p, c) = none) :
    (st.filter (fun e => !(e.1 == p))).filterMap f = st.filterMap f := by
  induction st with
  | nil => rfl
  | cons e rest ih =>
    by_cases he : e.1 = p
    · have hfe : f e = none := by
        have : e = (p, e.2) := by
          cases e; simp_all
        rw [this]
        exact hf e.2
      rw [List.filter_cons, if_neg (by simp [he]), List.filterMap_cons, hfe, ih]
    · rw [List.filter_cons, if_pos (by simp [he]), List.filterMap_cons,
        List.filterMap_cons, ih]

theorem listFiles_upload {st : Storage} {p : Path} {c : String}
    {folder : Path}
    (hnone : (if startsWith folder p = true then p.get? folder.length
      else none) = none) :
    listFiles (uploadFile st p c) folder = listFiles st folder := by
  unfold listFiles uploadFile
  rw [List.filterMap_cons, hnone,
    filterMap_filter_eq st (fun _ => hnone)]

theorem deleteFolder_mem {st : Storage} {folder : Path}
    {e : Path × String} (h : e ∈ deleteFolder st folder) :
    e ∈ st ∧ ∀ x, e.1 ≠ folder ++ [x] := by
  unfold deleteFolder at h
  have h2 := List.mem_filter.mp h
  refine ⟨h2.1, ?_⟩
  intro x hx
  have hany : (listFiles st folder).any (fun n => e.1 == folder ++ [n]) = true := by
    refine List.any_eq_true.mpr ⟨x, ?_, by simp [hx]⟩
    exact mem_listFiles.mpr ⟨e, h2.1, by
      rw [hx]; exact startsWith_self_append folder [x], by
      rw [hx, get?_append_self]; rfl⟩
  rw [hany] at h2
  simp at h2

/-- The image-copy loop with a healthy store: every copy source exists, no
transport failure.  The final storage only gains blobs under the new images
folder, and the collected URLs (produced whenever there was at least one
file) all lie under the new images folder. -/
theorem migImages_good (env : StoreEnv) (old new : String)
    (henv : ∀ a b, env.failCopy a b = false) :
    ∀ (names : List String) (st : Storage) (acc : List Path),
      names.Nodup →
      (∀ nm ∈ names,
        (storageGet st ["projects", old, "images", nm]).isSome = true) →
      (∀ e ∈ (migImages env old new names st acc).1,
        e ∈ st ∨ ∃ nm ∈ names, e.1 = ["projects", new, "images", nm]) ∧
      (names ≠ [] →
        ∃ urls, (migImages env old new names st acc).2 = some urls ∧
          ∀ q ∈ urls, q ∈ acc ∨
            ∃ nm ∈ names, q = ["projects", new, "images", nm]) := by
  intro names
  induction names with
  | nil =>
    intro st acc _ _
    exact ⟨fun e he => Or.inl he, fun h => absurd rfl h⟩
  | cons nm rest ih =>
    intro st acc hnd hblob
    have hsrc := hblob nm (List.mem_cons_self _ _)
    obtain ⟨cval, hcval⟩ := Option.isSome_iff_exists.mp hsrc
    rw [migImages, copyFile, if_neg (by simp [henv]), hcval]
    dsimp only
    have hblob' : ∀ x ∈ rest,
        (storageGet (uploadFile st ["projects", new, "images", nm] cval)
          ["projects", old, "images", x]).isSome = true := by
      intro x hx
      rw [storageGet_upload_ne]
      · exact hblob x (List.mem_cons_of_mem _ hx)
      · intro hcontra
        simp only [List.cons.injEq, and_true] at hcontra
        exact (List.nodup_cons.mp hnd).1 (hcontra.2.2.2 ▸ hx)
    obtain ⟨ihmem, ihurls⟩ :=
      ih (uploadFile st _ cval) (["projects", new, "images", nm] :: acc)
        (List.nodup_cons.mp hnd).2 hblob'
    constructor
    · intro e he
      rcases ihmem e he with h | ⟨x, hx, hee⟩
      · rcases uploadFile_mem h with h | ⟨h, _⟩
        · right
          exact ⟨nm, List.mem_cons_self _ _, by rw [h]⟩
        · exact Or.inl h
      · exact Or.inr ⟨x, List.mem_cons_of_mem _ hx, hee⟩
    · intro _
      by_cases hrest : rest = []
      · subst hrest
        refine ⟨(["projects", new, "images", nm] :: acc).reverse,
          by rw [migImages]; simp, ?_⟩
        intro q hq
        rw [List.mem_reverse] at hq
        rcases List.mem_cons.mp hq with h | h
        · exact Or.inr ⟨nm, List.mem_cons_self _ _, h⟩
        · exact Or.inl h
      · obtain ⟨urls, hu1, hu2⟩ := ihurls hrest
        refine ⟨urls, hu1, ?_⟩
        intro q hq
        rcases hu2 q hq with h | ⟨x, hx, hxe⟩
        · rcases List.mem_cons.mp h with h | h
          · exact Or.inr ⟨nm, List.mem_cons_self _ _, h⟩
          · exact Or.inl h
        · exact Or.inr ⟨x, List.mem_cons_of_mem _ hx, hxe⟩

/-- The canonical storage layout of a project: the blobs of its slug folder
are the canonical markdown, thumbnail and `images/` files, each asset field
of the record has its backing blob, and a non-empty `imageUrls` means a
non-empty `images/` sub-folder.  Note this is strictly the layout the
update route itself produces (`projects/{slug}/images/{...}`): projects
whose images were stored by the creation route at `projects/{slug}/{name}`
— the legacy layout the storage convention also admits — do NOT satisfy
the `imgs` clause, and the migration mishandles them (see the C3
counterexample below). -/
structure Consistent (p : Project) (st : Storage) : Prop where
  struct : ∀ e ∈ st, startsWith ["projects", p.slug] e.1 = true →
    e.1.length = 3 ∨ (e.1.length = 4 ∧ e.1.get? 2 = some "images")
  md : p.markdownFileUrl.isSome = true →
    (storageGet st ["projects", p.slug, "content.md"]).isSome = true
  thumb : ∀ tp, p.thumbnail = some tp →
    ∃ ext, thumbExt tp = some ext ∧
      (storageGet st ["projects", p.slug, "thumbnail." ++ ext]).isSome = true
  imgs : p.imageUrls ≠ [] →
    listFiles st ["projects", p.slug, "images"] ≠ []

/-- Under asset locality, a blob of the slug folder is a depth-one file or
an images file. -/
theorem struct_cases {p : Project} {st : Storage} (hc : Consistent p st)
    {e : Path × String} (he : e ∈ st)
    (hs : startsWith ["projects", p.slug] e.1 = true) :
    (∃ x, e.1 = ["projects", p.slug, x]) ∨
    (∃ y, e.1 = ["projects", p.slug, "images", y]) := by
  obtain ⟨r, hr⟩ := startsWith_iff.mp hs
  have hlen2 : (["projects", p.slug] : Path).length = 2 := rfl
  rcases hc.struct e he hs with h3 | ⟨h4, himg⟩
  · left
    rw [hr, List.length_append, hlen2] at h3
    have hr1 : r.length = 1 := by omega
    obtain ⟨x, hx⟩ := List.length_eq_one.mp hr1
    exact ⟨x, by rw [hr, hx]; rfl⟩
  · right
    rw [hr, List.length_append, hlen2] at h4
    have hr2 : r.length = 2 := by omega
    have hh : r.head? = some "images" := by
      have hg := get?_append_self ["projects", p.slug] r
      rw [hlen2] at hg
      rw [hr, hg] at himg
      exact himg
    cases r with
    | nil => cases hh
    | cons a rs =>
      cases rs with
      | nil => simp at hr2
      | cons b rs2 =>
        cases rs2 with
        | cons u v => simp at hr2
        | nil =>
          have ha : a = "images" := by simpa using hh
          exact ⟨b, by rw [hr, ha]; rfl⟩

/-- A blob inside the slug folder makes the folder listing non-empty. -/
theorem top_nonempty {p : Project} {st : Storage} (hc : Consistent p st)
    {e : Path × String} (he : e ∈ st)
    (hs : startsWith ["projects", p.slug] e.1 = true) :
    listFiles st ["projects", p.slug] ≠ [] := by
  intro hnil
  have hchild : ∃ n, e.1.get? 2 = some n := by
    rcases struct_cases hc he hs with ⟨x, hx⟩ | ⟨y, hy⟩
    · exact ⟨x, by rw [hx]; rfl⟩
    · exact ⟨"images", by rw [hy]; rfl⟩
  obtain ⟨n, hn⟩ := hchild
  have : n ∈ listFiles st ["projects", p.slug] :=
    mem_listFiles.mpr ⟨e, he, hs, hn⟩
  rw [hnil] at this
  cases this

/-- Every name listed in the images folder has its exact blob. -/
theorem images_blob {p : Project} {st : Storage} (hc : Consistent p st) :
    ∀ nm ∈ listFiles st ["projects", p.slug, "images"],
      (storageGet st ["projects", p.slug, "images", nm]).isSome = true := by
  intro nm hnm
  obtain ⟨e, he, hs, hg⟩ := mem_listFiles.mp hnm
  have hs2 : startsWith ["projects", p.slug] e.1 = true := by
    obtain ⟨r, hr⟩ := startsWith_iff.mp hs
    exact startsWith_iff.mpr ⟨"images" :: r, by rw [hr]; rfl⟩
  rcases struct_cases hc he hs2 with ⟨x, hx⟩ | ⟨y, hy⟩
  · rw [hx] at hg
    cases hg
  · rw [hy] at hg
    have hynm : y = nm := by simpa using hg
    have hblob : (storageGet st e.1).isSome = true :=
      storageGet_isSome.mpr ⟨e.2, he⟩
    rw [hy, hynm] at hblob
    exact hblob

/-- A depth-three path contributes nothing to the listing of a depth-three
folder. -/
theorem get?_none_of_len3 {p : Path} (hp : p.length = 3) (folder : Path)
    (hf : folder.length = 3) :
    (if startsWith folder p = true then p.get? folder.length else none) =
      none := by
  cases h : startsWith folder p
  · simp
  · rw [if_pos rfl, hf]
    exact List.get?_eq_none.mpr (by omega)

/-- Markdown step of the migration under a healthy store: the staged URL is
the canonical new path exactly when the record has one, the storage only
gains the new markdown blob, and lookups and depth-three listings elsewhere
are unchanged. -/
theorem migMd_good (env : StoreEnv) (st : Storage) (old new : String)
    (cur : Project) (henv : ∀ a b, env.failCopy a b = false)
    (hmd : cur.markdownFileUrl.isSome = true →
      (storageGet st ["projects", old, "content.md"]).isSome = true) :
    (migMd env st old new cur).1 =
      (if cur.markdownFileUrl.isSome = true
       then some ["projects", new, "content.md"] else none) ∧
    (∀ e ∈ (migMd env st old new cur).2,
      e ∈ st ∨ e.1 = ["projects", new, "content.md"]) ∧
    (∀ p : Path, p ≠ ["projects", new, "content.md"] →
      storageGet (migMd env st old new cur).2 p = storageGet st p) ∧
    (∀ folder : Path, folder.length = 3 →
      listFiles (migMd env st old new cur).2 folder = listFiles st folder) := by
  unfold migMd
  by_cases h : cur.markdownFileUrl.isSome = true
  · obtain ⟨c, hc⟩ := Option.isSome_iff_exists.mp (hmd h)
    rw [if_pos h, copyFile, if_neg (by simp [henv]), hc]
    dsimp only
    rw [if_pos h]
    refine ⟨rfl, ?_, ?_, ?_⟩
    · intro e he
      rcases uploadFile_mem he with hh | ⟨hh, _⟩
      · right; rw [hh]
      · left; exact hh
    · intro p hp
      exact storageGet_upload_ne _ _ _ _ hp
    · intro folder hf
      exact listFiles_upload (get?_none_of_len3
        (show (["projects", new, "content.md"] : Path).length = 3 from rfl)
        folder hf)
  · rw [if_neg h, if_neg h]
    exact ⟨rfl, fun e he => Or.inl he, fun p _ => rfl, fun folder _ => rfl⟩

/-- Thumbnail step of the migration under a healthy store. -/
theorem migThumb_good (env : StoreEnv) (st : Storage) (old new : String)
    (cur : Project) (henv : ∀ a b, env.failCopy a b = false)
    (hth : ∀ tp, cur.thumbnail = some tp →
      ∃ ext, thumbExt tp = some ext ∧
        (storageGet st ["projects", old, "thumbnail." ++ ext]).isSome = true) :
    (∀ q, (migThumb env st old new cur).1 = some q →
      ∃ ext, q = ["projects", new, "thumbnail." ++ ext]) ∧
    ((migThumb env st old new cur).1 = none → cur.thumbnail = none) ∧
    (∀ e ∈ (migThumb env st old new cur).2,
      e ∈ st ∨ ∃ ext, e.1 = ["projects", new, "thumbnail." ++ ext]) ∧
    (∀ p : Path, (∀ ext, p ≠ ["projects", new, "thumbnail." ++ ext]) →
      storageGet (migThumb env st old new cur).2 p = storageGet st p) ∧
    (∀ folder : Path, folder.length = 3 →
      listFiles (migThumb env st old new cur).2 folder = listFiles st folder) := by
  unfold migThumb
  cases hth0 : cur.thumbnail with
  | none =>
    refine ⟨?_, fun _ => rfl, fun e he => Or.inl he, fun p _ => rfl,
      fun folder _ => rfl⟩
    intro q hq
    cases hq
  | some tp =>
    obtain ⟨ext, hext, hblob⟩ := hth tp hth0
    obtain ⟨c, hc⟩ := Option.isSome_iff_exists.mp hblob
    dsimp only
    rw [hext]
    dsimp only
    rw [copyFile, if_neg (by simp [henv]), hc]
    dsimp only
    refine ⟨?_, ?_, ?_, ?_, ?_⟩
    · intro q hq
      refine ⟨ext, ?_⟩
      injection hq with hq
      rw [← hq]
    · intro hq
      cases hq
    · intro e he
      rcases uploadFile_mem he with hh | ⟨hh, _⟩
      · right; exact ⟨ext, by rw [hh]⟩
      · left; exact hh
    · intro p hp
      exact storageGet_upload_ne _ _ _ _ (hp ext)
    · intro folder hf
      exact listFiles_upload (get?_none_of_len3
        (show (["projects", new, "thumbnail." ++ ext] : Path).length = 3 from rfl)
        folder hf)

/-- Images step of the migration under a healthy store. -/
theorem migImagesStep_good (env : StoreEnv) (st : Storage) (old new : String)
    (cur : Project) (henv : ∀ a b, env.failCopy a b = false)
    (himgs : cur.imageUrls ≠ [] →
      listFiles st ["projects", old, "images"] ≠ [])
    (hblobs : ∀ nm ∈ listFiles st ["projects", old, "images"],
      (storageGet st ["projects", old, "images", nm]).isSome = true) :
    (∀ e ∈ (migImagesStep env st old new cur).1,
      e ∈ st ∨ ∃ nm, e.1 = ["projects", new, "images", nm]) ∧
    ((migImagesStep env st old new cur).2 = none → cur.imageUrls = []) ∧
    (∀ us, (migImagesStep env st old new cur).2 = some us →
      ∀ q ∈ us, ∃ nm, q = ["projects", new, "images", nm]) := by
  unfold migImagesStep
  by_cases h : cur.imageUrls.isEmpty
  · rw [if_pos h]
    exact ⟨fun e he => Or.inl he, fun _ => List.isEmpty_iff.mp h,
      fun us hus => by cases hus⟩
  · rw [if_neg h]
    have hne : cur.imageUrls ≠ [] := by
      intro hh
      exact h (by rw [hh]; rfl)
    obtain ⟨hmem, hurls⟩ := migImages_good env old new henv
      (listFiles st ["projects", old, "images"]) st []
      (listFiles_nodup _ _) hblobs
    refine ⟨?_, ?_, ?_⟩
    · intro e he
      rcases hmem e he with hh | ⟨nm, _, hnm⟩
      · exact Or.inl hh
      · exact Or.inr ⟨nm, hnm⟩
    · intro hnone
      exfalso
      obtain ⟨urls, hu, _⟩ := hurls (himgs hne)
      rw [hu] at hnone
      cases hnone
    · intro us hus q hq
      obtain ⟨urls, hu, hq2⟩ := hurls (himgs hne)
      rw [hu] at hus
      injection hus with hus
      subst hus
      rcases hq2 q hq with hh | ⟨nm, _, hnm⟩
      · cases hh
      · exact ⟨nm, hnm⟩

/-- After deleting the images sub-folder and then the main folder, no blob
whose path was either an original canonical blob of the old folder or a
canonically-placed copy survives inside the old folder. -/
theorem final_clean {cur : Project} {st st3 : Storage} {new : String}
    (hcons : Consistent cur st)
    (hadd : ∀ e ∈ st3, e ∈ st ∨ (∃ x, e.1 = ["projects", new, x]) ∨
      (∃ y, e.1 = ["projects", new, "images", y])) :
    ∀ e ∈ deleteFolder (deleteFolder st3 ["projects", cur.slug, "images"])
        ["projects", cur.slug],
      startsWith ["projects", cur.slug] e.1 = false := by
  intro e he
  obtain ⟨he4, houter⟩ := deleteFolder_mem he
  obtain ⟨he3, hinner⟩ := deleteFolder_mem he4
  cases hsw : startsWith ["projects", cur.slug] e.1 with
  | false => rfl
  | true =>
    exfalso
    rcases hadd e he3 with hst | ⟨x, hx⟩ | ⟨y, hy⟩
    · rcases struct_cases hcons hst hsw with ⟨x, hx⟩ | ⟨y, hy⟩
      · exact houter x (by rw [hx]; rfl)
      · exact hinner y (by rw [hy]; rfl)
    · obtain ⟨r, hr⟩ := startsWith_iff.mp hsw
      rw [hx] at hr
      obtain ⟨hn, hrx⟩ : new = cur.slug ∧ [x] = r := by
        have hr' : "projects" = "projects" ∧ new = cur.slug ∧ [x] = r := by
          simpa using hr
        exact hr'.2
      exact houter x (by rw [hx, hn]; rfl)
    · obtain ⟨r, hr⟩ := startsWith_iff.mp hsw
      rw [hy] at hr
      obtain ⟨hn, hrx⟩ : new = cur.slug ∧ ["images", y] = r := by
        have hr' : "projects" = "projects" ∧ new = cur.slug ∧ ["images", y] = r := by
          simpa using hr
        exact hr'.2
      exact hinner y (by rw [hy, hn]; rfl)

/-- The migration under a healthy store and a consistent state: every URL it
stages lies under the new slug's folder, a URL it leaves unset was absent on
the record (or, for images, the record had none), and the old slug's folder
is empty afterwards. -/
theorem migrate_good (env : StoreEnv) (st : Storage) (cur : Project)
    (new : String)
    (henv : ∀ a b, env.failCopy a b = false)
    (hcons : Consistent cur st) :
    ((migrateProjectFiles env st cur.slug new cur).1.markdownFileUrl = none →
      cur.markdownFileUrl = none) ∧
    (∀ q, (migrateProjectFiles env st cur.slug new cur).1.markdownFileUrl =
      some q → q = ["projects", new, "content.md"]) ∧
    ((migrateProjectFiles env st cur.slug new cur).1.thumbnail = none →
      cur.thumbnail = none) ∧
    (∀ q, (migrateProjectFiles env st cur.slug new cur).1.thumbnail = some q →
      ∃ ext, q = ["projects", new, "thumbnail." ++ ext]) ∧
    ((migrateProjectFiles env st cur.slug new cur).1.imageUrls = none →
      cur.imageUrls = []) ∧
    (∀ us, (migrateProjectFiles env st cur.slug new cur).1.imageUrls =
      some us → ∀ q ∈ us, ∃ nm, q = ["projects", new, "images", nm]) ∧
    (∀ e ∈ (migrateProjectFiles env st cur.slug new cur).2,
      startsWith ["projects", cur.slug] e.1 = false) := by
  unfold migrateProjectFiles
  by_cases hempty : (listFiles st ["projects", cur.slug]).isEmpty
  · rw [if_pos hempty]
    have hnil : listFiles st ["projects", cur.slug] = [] :=
      List.isEmpty_iff.mp hempty
    have hnoblob : ∀ e ∈ st, startsWith ["projects", cur.slug] e.1 = false := by
      intro e he
      cases hsw : startsWith ["projects", cur.slug] e.1 with
      | false => rfl
      | true => exact absurd hnil (top_nonempty hcons he hsw)
    refine ⟨?_, ?_, ?_, ?_, ?_, ?_, ?_⟩
    · intro _
      cases hmd : cur.markdownFileUrl with
      | none => rfl
      | some q =>
        exfalso
        have hi : cur.markdownFileUrl.isSome = true := by rw [hmd]; rfl
        obtain ⟨c, hc⟩ := Option.isSome_iff_exists.mp (hcons.md hi)
        obtain ⟨cc, hcc⟩ := storageGet_isSome.mp (by rw [hc]; rfl)
        have := hnoblob _ hcc
        rw [show startsWith ["projects", cur.slug]
            ["projects", cur.slug, "content.md"] = true from
          startsWith_iff.mpr ⟨["content.md"], rfl⟩] at this
        cases this
    · intro q hq
      cases hq
    · intro _
      cases hth : cur.thumbnail with
      | none => rfl
      | some tp =>
        exfalso
        obtain ⟨ext, -, hblob⟩ := hcons.thumb tp hth
        obtain ⟨cc, hcc⟩ := storageGet_isSome.mp hblob
        have := hnoblob _ hcc
        rw [show startsWith ["projects", cur.slug]
            ["projects", cur.slug, "thumbnail." ++ ext] = true from
          startsWith_iff.mpr ⟨["thumbnail." ++ ext], rfl⟩] at this
        cases this
    · intro q hq
      cases hq
    · intro _
      cases himg : cur.imageUrls with
      | nil => rfl
      | cons u us =>
        exfalso
        have hne : cur.imageUrls ≠ [] := by rw [himg]; simp
        have hlist := hcons.imgs hne
        obtain ⟨nm, hnm⟩ := List.exists_mem_of_ne_nil _ hlist
        obtain ⟨e, he, hs, -⟩ := mem_listFiles.mp hnm
        have hs2 : startsWith ["projects", cur.slug] e.1 = true := by
          obtain ⟨r, hr⟩ := startsWith_iff.mp hs
          exact startsWith_iff.mpr ⟨"images" :: r, by rw [hr]; rfl⟩
        have := hnoblob _ he
        rw [hs2] at this
        cases this
    · intro us hus
      cases hus
    · intro e he
      exact hnoblob e he
  · rw [if_neg hempty]
    dsimp only
    obtain ⟨m1, m2, m3, m4⟩ :=
      migMd_good env st cur.slug new cur henv hcons.md
    have hth2 : ∀ tp, cur.thumbnail = some tp →
        ∃ ext, thumbExt tp = some ext ∧
          (storageGet (migMd env st cur.slug new cur).2
            ["projects", cur.slug, "thumbnail." ++ ext]).isSome = true := by
      intro tp htp
      obtain ⟨ext, hext, hblob⟩ := hcons.thumb tp htp
      refine ⟨ext, hext, ?_⟩
      rw [m3]
      · exact hblob
      · intro hcontra
        have hsplit : cur.slug = new ∧ ("thumbnail." ++ ext) = "content.md" := by
          simpa using hcontra
        exact thumbName_ne_content ext hsplit.2
    obtain ⟨t1, t2, t3, t4, t5⟩ :=
      migThumb_good env (migMd env st cur.slug new cur).2 cur.slug new cur
        henv hth2
    have hlist2 : listFiles
        (migThumb env (migMd env st cur.slug new cur).2 cur.slug new cur).2
        ["projects", cur.slug, "images"] =
        listFiles st ["projects", cur.slug, "images"] := by
      rw [t5 ["projects", cur.slug, "images"] rfl,
        m4 ["projects", cur.slug, "images"] rfl]
    have himgs2 : cur.imageUrls ≠ [] →
        listFiles
          (migThumb env (migMd env st cur.slug new cur).2 cur.slug new cur).2
          ["projects", cur.slug, "images"] ≠ [] := by
      intro hne
      rw [hlist2]
      exact hcons.imgs hne
    have hblobs2 : ∀ nm ∈ listFiles
        (migThumb env (migMd env st cur.slug new cur).2 cur.slug new cur).2
        ["projects", cur.slug, "images"],
        (storageGet
          (migThumb env (migMd env st cur.slug new cur).2 cur.slug new cur).2
          ["projects", cur.slug, "images", nm]).isSome = true := by
      intro nm hnm
      rw [hlist2] at hnm
      rw [t4, m3]
      · exact images_blob hcons nm hnm
      · intro hcontra
        have h43 := congrArg List.length hcontra
        simp at h43
      · intro ext hcontra
        have h43 := congrArg List.length hcontra
        simp at h43
    obtain ⟨i1, i2, i3⟩ :=
      migImagesStep_good env
        (migThumb env (migMd env st cur.slug new cur).2 cur.slug new cur).2
        cur.slug new cur henv himgs2 hblobs2
    have hadd : ∀ e ∈ (migImagesStep env
        (migThumb env (migMd env st cur.slug new cur).2 cur.slug new cur).2
        cur.slug new cur).1,
        e ∈ st ∨ (∃ x, e.1 = ["projects", new, x]) ∨
          (∃ y, e.1 = ["projects", new, "images", y]) := by
      intro e he
      rcases i1 e he with he2 | ⟨nm, hnm⟩
      · rcases t3 e he2 with he1 | ⟨ext, hext⟩
        · rcases m2 e he1 with he0 | hmd0
          · exact Or.inl he0
          · exact Or.inr (Or.inl ⟨"content.md", hmd0⟩)
        · exact Or.inr (Or.inl ⟨"thumbnail." ++ ext, hext⟩)
      · exact Or.inr (Or.inr ⟨nm, hnm⟩)
    refine ⟨?_, ?_, ?_, ?_, ?_, ?_, ?_⟩
    · intro hnone
      rw [m1] at hnone
      by_cases h : cur.markdownFileUrl.isSome = true
      · rw [if_pos h] at hnone; cases hnone
      · exact Option.not_isSome_iff_eq_none.mp h
    · intro q hq
      rw [m1] at hq
      by_cases h : cur.markdownFileUrl.isSome = true
      · rw [if_pos h] at hq
        injection hq with hq
        rw [← hq]
      · rw [if_neg h] at hq; cases hq
    · exact t2
    · exact t1
    · exact i2
    · exact i3
    · exact final_clean hcons hadd

/-- The storage a PATCH call ends with is the one the migration stage
produced, whatever the database write then does. -/
theorem patchRest_storage (env : StoreEnv) (db : List Project) (st : Storage)
    (now id : Nat) (req : PatchInput) (current : Project) (upd : UpdateData)
    (t : String) (tch : Bool) :
    (patchRest env db st now id req current upd t tch).storage =
      (stageMigrate env req current t tch
        (stageFiles req current st upd t now)).1 := by
  unfold patchRest
  cases dbUpdate db id
      (stagePublish db id now req
        (stageMigrate env req current t tch
          (stageFiles req current st upd t now)).2) with
  | error e => rfl
  | ok r => rfl

/-- C3 amended.  For projects in the canonical storage layout
(`Consistent`: markdown at `content.md`, thumbnail at `thumbnail.{ext}`,
images inside `images/`), a successful title-only update (no new files,
healthy store) leaves every asset URL of the returned record under
`projects/{newSlug}/` — a URL path extending `["projects", generateSlug t]`
— and leaves the old slug's folder empty: no blob path under
`["projects", current.slug]` survives in storage.  The restriction to the
canonical layout is necessary: the claim as stated fails on legacy-layout
projects, see the counterexample. -/
theorem title_only_change_relocates_assets (env : StoreEnv)
    (db : List Project) (st : Storage) (now id : Nat) (req : PatchInput)
    (current : Project) (t : String) (rec : Project)
    (henv : ∀ a b, env.failCopy a b = false)
    (hf : db.find? (fun p => p.id == id) = some current)
    (ht : req.title = some t) (hne : t ≠ "") (hnc : t ≠ current.title)
    (hmd : req.markdownFile = none) (hth : req.thumbnailFile = none)
    (him : req.imageFiles = [])
    (hcons : Consistent current st)
    (hok : (patch env db st now id req).outcome = .ok rec) :
    (∀ q, rec.markdownFileUrl = some q →
      startsWith ["projects", generateSlug t] q = true) ∧
    (∀ q, rec.thumbnail = some q →
      startsWith ["projects", generateSlug t] q = true) ∧
    (∀ q ∈ rec.imageUrls, startsWith ["projects", generateSlug t] q = true) ∧
    (∀ e ∈ (patch env db st now id req).storage,
      startsWith ["projects", current.slug] e.1 = false) := by
  have hconf : (db.any fun q => q.id != id && q.slug == generateSlug t) = false := by
    cases hcc : (db.any fun q => q.id != id && q.slug == generateSlug t) with
    | false => rfl
    | true =>
      exfalso
      have hbad : patch env db st now id req = ⟨.slugConflict, db, st⟩ := by
        unfold patch
        rw [hf, ht]
        dsimp only
        rw [if_neg (by simp [hne, hnc]), if_pos hcc]
      rw [hbad] at hok
      simp at hok
  have heq : patch env db st now id req =
      patchRest env db st now id req current
        { baseUpdate req now with
          title := some t, slug := some (generateSlug t) }
        (generateSlug t) true := by
    unfold patch
    rw [hf, ht]
    dsimp only
    rw [if_neg (by simp [hne, hnc]), if_neg (by simp [hconf])]
  rw [heq] at hok
  rw [heq]
  obtain ⟨g1, g2, g3, g4, g5, g6, g7⟩ :=
    migrate_good env st current (generateSlug t) henv hcons
  have hsf : stageFiles req current st
      { baseUpdate req now with
        title := some t, slug := some (generateSlug t) }
      (generateSlug t) now =
      (st, { baseUpdate req now with
        title := some t, slug := some (generateSlug t) }) :=
    stageFiles_none _ _ _ _ _ _ hmd hth him
  have hsm : stageMigrate env req current (generateSlug t) true
      (st, { baseUpdate req now with
        title := some t, slug := some (generateSlug t) }) =
      ((migrateProjectFiles env st current.slug (generateSlug t) current).2,
       mergeMigrated
         { baseUpdate req now with
           title := some t, slug := some (generateSlug t) }
         (migrateProjectFiles env st current.slug (generateSlug t) current).1) := by
    unfold stageMigrate
    rw [if_pos (by simp [hmd, hth, him])]
  obtain ⟨cur', hf', hr, -⟩ := patchRest_ok _ _ _ _ _ _ _ _ _ _ _ hok
  rw [hf] at hf'
  injection hf' with hcc
  subst hcc
  have h5md : (stagePublish db id now req
      (stageMigrate env req current (generateSlug t) true
        (stageFiles req current st
          { baseUpdate req now with
            title := some t, slug := some (generateSlug t) }
          (generateSlug t) now)).2).markdownFileUrl =
      (mergeMigrated
        { baseUpdate req now with
          title := some t, slug := some (generateSlug t) }
        (migrateProjectFiles env st current.slug (generateSlug t) current).1).markdownFileUrl := by
    rw [(stagePublish_preserved db id now req _).2.2.2.2.2.2.1, hsf, hsm]
  have h5th : (stagePublish db id now req
      (stageMigrate env req current (generateSlug t) true
        (stageFiles req current st
          { baseUpdate req now with
            title := some t, slug := some (generateSlug t) }
          (generateSlug t) now)).2).thumbnail =
      (mergeMigrated
        { baseUpdate req now with
          title := some t, slug := some (generateSlug t) }
        (migrateProjectFiles env st current.slug (generateSlug t) current).1).thumbnail := by
    rw [(stagePublish_preserved db id now req _).2.2.2.2.2.2.2.1, hsf, hsm]
  have h5im : (stagePublish db id now req
      (stageMigrate env req current (generateSlug t) true
        (stageFiles req current st
          { baseUpdate req now with
            title := some t, slug := some (generateSlug t) }
          (generateSlug t) now)).2).imageUrls =
      (mergeMigrated
        { baseUpdate req now with
          title := some t, slug := some (generateSlug t) }
        (migrateProjectFiles env st current.slug (generateSlug t) current).1).imageUrls := by
    rw [(stagePublish_preserved db id now req _).2.2.2.2.2.2.2.2.1, hsf, hsm]
  refine ⟨?_, ?_, ?_, ?_⟩
  · intro q hq
    rw [hr] at hq
    rcases hmig : (migrateProjectFiles env st current.slug
        (generateSlug t) current).1.markdownFileUrl with _ | x
    · have hnone : (stagePublish db id now req
          (stageMigrate env req current (generateSlug t) true
            (stageFiles req current st
              { baseUpdate req now with
                title := some t, slug := some (generateSlug t) }
              (generateSlug t) now)).2).markdownFileUrl = none := by
        rw [h5md]
        simp [mergeMigrated, hmig, baseUpdate]
      simp only [applyUpdate, hnone] at hq
      rw [g1 hmig] at hq
      cases hq
    · have hsome : (stagePublish db id now req
          (stageMigrate env req current (generateSlug t) true
            (stageFiles req current st
              { baseUpdate req now with
                title := some t, slug := some (generateSlug t) }
              (generateSlug t) now)).2).markdownFileUrl = some x := by
        rw [h5md]
        simp [mergeMigrated, hmig]
      simp only [applyUpdate, hsome] at hq
      injection hq with hq
      rw [← hq, g2 x hmig]
      exact startsWith_iff.mpr ⟨["content.md"], rfl⟩
  · intro q hq
    rw [hr] at hq
    rcases hmig : (migrateProjectFiles env st current.slug
        (generateSlug t) current).1.thumbnail with _ | x
    · have hnone : (stagePublish db id now req
          (stageMigrate env req current (generateSlug t) true
            (stageFiles req current st
              { baseUpdate req now with
                title := some t, slug := some (generateSlug t) }
              (generateSlug t) now)).2).thumbnail = none := by
        rw [h5th]
        simp [mergeMigrated, hmig, baseUpdate]
      simp only [applyUpdate, hnone] at hq
      rw [g3 hmig] at hq
      cases hq
    · have hsome : (stagePublish db id now req
          (stageMigrate env req current (generateSlug t) true
            (stageFiles req current st
              { baseUpdate req now with
                title := some t, slug := some (generateSlug t) }
              (generateSlug t) now)).2).thumbnail = some x := by
        rw [h5th]
        simp [mergeMigrated, hmig]
      simp only [applyUpdate, hsome] at hq
      injection hq with hq
      obtain ⟨ext, hext⟩ := g4 x hmig
      rw [← hq, hext]
      exact startsWith_iff.mpr ⟨["thumbnail." ++ ext], rfl⟩
  · intro q hq
    rw [hr] at hq
    rcases hmig : (migrateProjectFiles env st current.slug
        (generateSlug t) current).1.imageUrls with _ | us
    · have hnone : (stagePublish db id now req
          (stageMigrate env req current (generateSlug t) true
            (stageFiles req current st
              { baseUpdate req now with
                title := some t, slug := some (generateSlug t) }
              (generateSlug t) now)).2).imageUrls = none := by
        rw [h5im]
        simp [mergeMigrated, hmig, baseUpdate]
      simp only [applyUpdate, hnone] at hq
      simp only [Option.getD_none] at hq
      rw [g5 hmig] at hq
      cases hq
    · have hsome : (stagePublish db id now req
          (stageMigrate env req current (generateSlug t) true
            (stageFiles req current st
              { baseUpdate req now with
                title := some t, slug := some (generateSlug t) }
              (generateSlug t) now)).2).imageUrls = some us := by
        rw [h5im]
        simp [mergeMigrated, hmig]
      simp only [applyUpdate, hsome] at hq
      simp only [Option.getD_some] at hq
      obtain ⟨nm, hnm⟩ := g6 us hmig q hq
      rw [hnm]
      exact startsWith_iff.mpr ⟨["images", nm], rfl⟩
  · intro e he
    rw [patchRest_storage, hsf, hsm] at he
    exact g7 e he

/-- The record the concrete C3 migration returns. -/
def recC3 : Project where
  id := 1
  title := "New Title"
  slug := "new-title"
  description := "d"
  category := "other"
  tags := ["t"]
  thumbnail := some ["projects", "new-title", "thumbnail.png"]
  markdownFileUrl := some ["projects", "new-title", "content.md"]
  markdownContent := "# doc"
  imageUrls := []
  isPublished := false
  publishedAt := none
  updatedAt := 50

/-- C3 witness: the concrete title-only migration of `pC1` with a healthy
store relocates both assets under `projects/new-title/` and empties the old
folder. -/
theorem title_only_change_relocates_assets_witness :
    (∀ q, recC3.markdownFileUrl = some q →
      startsWith ["projects", generateSlug "New Title"] q = true) ∧
    (∀ q, recC3.thumbnail = some q →
      startsWith ["projects", generateSlug "New Title"] q = true) ∧
    (∀ q ∈ recC3.imageUrls,
      startsWith ["projects", generateSlug "New Title"] q = true) ∧
    (∀ e ∈ (patch noFail [pC1] stC1 50 1
        { title := some "New Title" }).storage,
      startsWith ["projects", pC1.slug] e.1 = false) :=
  title_only_change_relocates_assets noFail [pC1] stC1 50 1
    { title := some "New Title" } pC1 "New Title" recC3
    (fun _ _ => rfl) (by decide) rfl (by decide) (by decide) rfl rfl rfl
    { struct := by decide
      md := by decide
      thumb := by
        intro tp h
        injection h with h
        subst h
        exact ⟨"png", rfl, rfl⟩
      imgs := by decide }
    (by decide)

/-- A project in the legacy storage layout: its image was stored by the
creation route directly at `projects/{slug}/chart.png`, not inside the
`images/` sub-folder, so `imageUrls` is non-empty while
`projects/{slug}/images` is empty. -/
def pLegacy : Project where
  id := 1
  title := "Old Title"
  slug := "old-title"
  description := "d"
  category := "other"
  tags := ["t"]
  thumbnail := none
  markdownFileUrl := some ["projects", "old-title", "content.md"]
  markdownContent := "# doc"
  imageUrls := [["projects", "old-title", "chart.png"]]
  isPublished := false
  publishedAt := none
  updatedAt := 0

/-- Storage matching `pLegacy`: markdown and image both directly inside the
slug folder. -/
def stLegacy : Storage :=
  [(["projects", "old-title", "content.md"], "# doc"),
   (["projects", "old-title", "chart.png"], "PNG")]

/-- C3 counterexample.  On a legacy-layout project (image stored at
`projects/{slug}/chart.png` by the creation route, a layout the storage
convention explicitly admits), a title-only rename succeeds, yet the
returned record's `imageUrls` entry still resolves under the old slug's
folder — the migration lists only the empty `images/` sub-folder and copies
nothing — and the image blob itself is deleted together with the old
folder, so the committed record points at a missing blob.  This refutes the
claim as stated: not every asset URL on the returned record resolves under
`projects/{newSlug}/`. -/
theorem legacy_images_not_migrated_cex :
    ∃ rec,
      (patch noFail [pLegacy] stLegacy 50 1
        { title := some "New Title" }).outcome = .ok rec ∧
      rec.slug = "new-title" ∧
      rec.imageUrls = [["projects", "old-title", "chart.png"]] ∧
      startsWith ["projects", generateSlug "New Title"]
        ["projects", "old-title", "chart.png"] = false ∧
      storageGet (patch noFail [pLegacy] stLegacy 50 1
        { title := some "New Title" }).storage
        ["projects", "old-title", "chart.png"] = none :=
  ⟨{ id := 1, title := "New Title", slug := "new-title", description := "d",
     category := "other", tags := ["t"], thumbnail := none,
     markdownFileUrl := some ["projects", "new-title", "content.md"],
     markdownContent := "# doc",
     imageUrls := [["projects", "old-title", "chart.png"]],
     isPublished := false, publishedAt := none, updatedAt := 50 },
   by decide, by decide, by decide, by decide, by decide⟩

end Portfolio
